import Mathlib

/-!
# A deck of playing cards: construction options and their properties

Shallow embedding of `deck.go` (package `deck`).

* Go's `int` is a 64-bit two's complement integer; `Rank` and `Suit` are named
  `int` types.  They are embedded as `Int`, and the one place where the code
  does arithmetic on them (`absRank`) wraps its result to 64 bits.
* A slice `[]Card` is embedded as `List Card`.  Every option consumes the
  slice it is given and returns the slice to be used from then on, so the
  sharing of backing arrays between the argument and the result is not
  observable and value semantics is exact.
* The two library routines the package calls are arguments of the embedding:
  `sort.Slice` (argument `sortSlice` of `DefaultSort` and of `SortOption`, the
  embedding of `Sort`) and the draw `shuffleRand.Perm(len(cards))` (argument
  `perm` of `Shuffle`).  Theorems about sorting hold for every routine that
  meets the documented contract of `sort.Slice`; the routines of the Go library
  are embedded as well, to see what the package does on particular decks.
-/

namespace deck

/-- Go `type Rank int`. -/
abbrev Rank := Int

/-- Go `type Suit int`. -/
abbrev Suit := Int

def Ace : Rank := 1
def Two : Rank := 2
def Three : Rank := 3
def Four : Rank := 4
def Five : Rank := 5
def Six : Rank := 6
def Seven : Rank := 7
def Eight : Rank := 8
def Nine : Rank := 9
def Ten : Rank := 10
def Jack : Rank := 11
def Queen : Rank := 12
def King : Rank := 13

def minRank : Rank := Ace
def maxRank : Rank := King

def Spade : Suit := 0
def Diamond : Suit := 1
def Club : Suit := 2
def Heart : Suit := 3
def Joker : Suit := 4

/-- Go `var suits = []Suit{Spade, Diamond, Club, Heart}`. -/
def suits : List Suit := [Spade, Diamond, Club, Heart]

/-- Go `type Card struct { Rank; Suit }`; equality is field-wise. -/
structure Card where
  Rank : Rank
  Suit : Suit
deriving DecidableEq, Repr

/-- The zero value `Card{}`, which is what `make([]Card, n)` fills a slice with. -/
instance : Inhabited Card := ⟨⟨0, 0⟩⟩

/-- The values taken by the loop variable of
`for rank := minRank; rank <= maxRank; rank++`, in order. -/
def rankRange : List Rank :=
  (List.range (maxRank + 1 - minRank).toNat).map (fun k => minRank + (k : Int))

/-- The first half of `New`: the two nested loops that append one card per
suit and rank to the initially nil slice. -/
def baseDeck : List Card :=
  suits.foldl
    (fun cards suit =>
      rankRange.foldl (fun cards rank => cards ++ [{ Suit := suit, Rank := rank }]) cards)
    []

/-- Go `func New(opts ...func([]Card) []Card) []Card`: the base deck, then
`cards = opt(cards)` for each option in turn. -/
def New (opts : List (List Card → List Card)) : List Card :=
  opts.foldl (fun cards opt => opt cards) baseDeck

/-! ## The options -/

/-- Go's `int` arithmetic: the 64-bit two's complement value of an integer. -/
def wrapInt (x : Int) : Int := (x + 2 ^ 63) % 2 ^ 64 - 2 ^ 63

/-- Go `func absRank(c Card) int`:
`int(c.Suit)*int(maxRank) + int(c.Rank)`. -/
def absRank (c : Card) : Int := wrapInt (c.Suit * maxRank + c.Rank)

/-- A comparator factory, Go `func(cards []Card) func(i, j int) bool`.  The
closure a factory returns reads the slice it was given while `sort.Slice`
swaps that same slice in place, so what it answers depends on the contents at
the time of the call: `less cur i j` is the closure's answer at positions `i`
and `j` when the slice holds `cur`. -/
abbrev LessFactory := List Card → Nat → Nat → Bool

/-- Go `func Less(cards []Card) func(i, j int) bool`: the closure
`absRank(cards[i]) < absRank(cards[j])`.  (`sort.Slice` only asks about
positions inside the slice; `getD` makes the embedding total.) -/
def Less : LessFactory := fun cards i j =>
  decide (absRank (cards.getD i default) < absRank (cards.getD j default))

/-- Go `func DefaultSort(cards []Card) []Card`:
`sort.Slice(cards, Less(cards)); return cards`. -/
def DefaultSort (sortSlice : LessFactory → List Card → List Card) (cards : List Card) :
    List Card :=
  sortSlice Less cards

/-- Go `func Sort(less func(cards []Card) func(i, j int) bool) func([]Card) []Card`:
the option `sort.Slice(cards, less(cards)); return cards`.  (`Sort` is a
reserved word of Lean, hence the longer name.) -/
def SortOption (sortSlice : LessFactory → List Card → List Card) (less : LessFactory)
    (cards : List Card) : List Card :=
  sortSlice less cards

/-- Go `func Shuffle(cards []Card) []Card`, given the draw
`perm = shuffleRand.Perm(len(cards))`: `result` starts as `len(cards)` zero
cards and the loop `for i, j := range perm` stores `result[i] = cards[j]`. -/
def Shuffle (perm : List Nat) (cards : List Card) : List Card :=
  perm.enum.foldl (fun result ij => result.set ij.1 (cards.getD ij.2 default))
    (List.replicate cards.length default)

/-- Go `func Jokers(n int) func([]Card) []Card`: the loop
`for i := 0; i < n; i++` appends `Card{Suit: Joker, Rank: Rank(i)}`. -/
def Jokers (n : Int) (cards : List Card) : List Card :=
  (List.range n.toNat).foldl
    (fun cards i => cards ++ [{ Suit := Joker, Rank := (i : Int) }]) cards

/-- Go `func Filter(f func(card Card) bool) func([]Card) []Card`: the loop
appends to the initially nil `result` every card with `!f(c)`. -/
def Filter (f : Card → Bool) (cards : List Card) : List Card :=
  cards.foldl (fun result c => if !f c then result ++ [c] else result) []

/-- Go `func Deck(n int) func([]Card) []Card`: the loop
`for i := 0; i < n; i++` appends all of `cards` to the initially nil `result`. -/
def Deck (n : Int) (cards : List Card) : List Card :=
  (List.range n.toNat).foldl (fun result _ => result ++ cards) []

/-! ## What `sort.Slice` is asked to do

`sort.Slice` belongs to Go's standard library.  Its documentation promises a
sorted rearrangement when the comparator is a strict weak order ("Less must
describe a transitive ordering"), and says that "the sort is not guaranteed to
be stable: equal elements may be reversed from their original order". -/

/-- The requirement Go puts on a comparator: irreflexive, transitive, and
transitive on the pairs it does not order. -/
def StrictWeakOrder (lt : Card → Card → Bool) : Prop :=
  (∀ a, lt a a = false) ∧
  (∀ a b c, lt a b = true → lt b c = true → lt a c = true) ∧
  (∀ a b c, lt a b = false → lt b c = false → lt a c = false)

/-- The factory `less` compares the cards currently at positions `i` and `j`
with the relation `lt`. -/
def ComparesBy (less : LessFactory) (lt : Card → Card → Bool) : Prop :=
  ∀ (cur : List Card) (i j : Nat), i < cur.length → j < cur.length →
    less cur i j = lt (cur.getD i default) (cur.getD j default)

/-- The documented contract of `sort.Slice`: for a comparator that compares
the current cards by a strict weak order, the slice ends up holding the same
cards, none of them less than a card before it. -/
def SortsSlices (sortSlice : LessFactory → List Card → List Card) : Prop :=
  ∀ (less : LessFactory) (lt : Card → Card → Bool), StrictWeakOrder lt → ComparesBy less lt →
    ∀ x : List Card, (sortSlice less x).Perm x ∧
      (sortSlice less x).Pairwise (fun a b => lt b a = false)

/-- The relation `Less` compares by. -/
def ltRank (a b : Card) : Bool := decide (absRank a < absRank b)

/-- A sort is stable on `d` when, key by key, the cards of that key come out
in the order they went in. -/
def KeepsTies (d r : List Card) : Prop :=
  ∀ k : Int, r.filter (fun c => absRank c == k) = d.filter (fun c => absRank c == k)

/-- A sorting routine that meets the contract: insertion of each card, from
the last to the first, in front of the first card it is not greater than. -/
def insertionSlice (less : LessFactory) (x : List Card) : List Card :=
  x.insertionSort (fun a b => less [a, b] 1 0 = false)

/-- Another sorting routine that meets the contract: insertion sort of the
slice read from its last card to its first.  Cards that the comparator does
not order come out in the reverse of the order they went in, which the
documentation of `sort.Slice` allows ("equal elements may be reversed from
their original order"). -/
def reversingSlice (less : LessFactory) (x : List Card) : List Card :=
  insertionSlice less x.reverse

/-! ## How `sort.Slice` goes about it

The routines of Go's `sort` package that `sort.Slice` runs (file
`zfuncversion.go` through Go 1.18, `zsortfunc.go` from Go 1.19 on), over a
slice of cards.  They touch the slice only through `data.Less(i, j)` and
`data.Swap(i, j)`.  Loops whose number of rounds is not fixed in advance are
given fuel; the two recursive routines return `none` if it runs out. -/

/-- Go `data.Swap(i, j)`: exchange the cards at positions `i` and `j`. -/
def Swap (data : List Card) (i j : Nat) : List Card :=
  (data.set i (data.getD j default)).set j (data.getD i default)

/-- The loop `for ; a < c && cond(a); a++ {}`; returns the final `a`. -/
def scanUp (cond : Nat → Bool) (c : Nat) : Nat → Nat → Nat
  | 0, a => a
  | fuel + 1, a => if a < c && cond a then scanUp cond c fuel (a + 1) else a

/-- The loop `for ; b < c && cond(c-1); c-- {}`; returns the final `c`. -/
def scanDown (cond : Nat → Bool) (b : Nat) : Nat → Nat → Nat
  | 0, c => c
  | fuel + 1, c => if b < c && cond (c - 1) then scanDown cond b fuel (c - 1) else c

/-- The loop `for i <= j && cond(i) { i++ }`; returns the final `i`. -/
def scanRight (cond : Nat → Bool) (j : Nat) : Nat → Nat → Nat
  | 0, i => i
  | fuel + 1, i => if i ≤ j && cond i then scanRight cond j fuel (i + 1) else i

/-- The loop `for i <= j && cond(j) { j-- }`; returns the final `j`. -/
def scanLeft (cond : Nat → Bool) (i : Nat) : Nat → Nat → Nat
  | 0, j => j
  | fuel + 1, j => if i ≤ j && cond j then scanLeft cond i fuel (j - 1) else j

/-- The inner loop of `insertionSort_func`:
`for j := i; j > a && data.Less(j, j-1); j-- { data.Swap(j, j-1) }`. -/
def insertionInner (less : LessFactory) (a : Nat) : Nat → List Card → List Card
  | 0, data => data
  | j + 1, data =>
    if a < j + 1 && less data (j + 1) j then insertionInner less a j (Swap data (j + 1) j)
    else data

/-- Go `func insertionSort_func(data lessSwap, a, b int)`: the inner loop for
`i` from `a + 1` up to `b - 1`. -/
def insertionSort_func (less : LessFactory) (data : List Card) (a b : Nat) : List Card :=
  (List.range' (a + 1) (b - (a + 1))).foldl (fun data i => insertionInner less a i data) data

/-- The loop of `siftDown_func`, started at `root`. -/
def siftDownLoop (less : LessFactory) (hi first : Nat) : Nat → Nat → List Card → List Card
  | 0, _, data => data
  | fuel + 1, root, data =>
    let child := 2 * root + 1
    if hi ≤ child then data
    else
      let child :=
        if child + 1 < hi && less data (first + child) (first + child + 1) then child + 1
        else child
      if !less data (first + root) (first + child) then data
      else siftDownLoop less hi first fuel child (Swap data (first + root) (first + child))

/-- Go `func siftDown_func(data lessSwap, lo, hi, first int)`. -/
def siftDown_func (less : LessFactory) (data : List Card) (lo hi first : Nat) : List Card :=
  siftDownLoop less hi first hi lo data

/-- Go `func heapSort_func(data lessSwap, a, b int)`: build the heap with `i`
from `(hi-1)/2` down to 0, then pop with `i` from `hi-1` down to 0. -/
def heapSort_func (less : LessFactory) (data : List Card) (a b : Nat) : List Card :=
  let first := a
  let lo := 0
  let hi := b - a
  let data := (List.range ((hi - 1) / 2 + 1)).reverse.foldl
    (fun data i => siftDown_func less data i hi first) data
  (List.range hi).reverse.foldl
    (fun data i => siftDown_func less (Swap data first (first + i)) lo i first) data

/-- Go `bits.Len(uint(n))`, the number of binary digits of `n`; it is also
the count of rounds of `for i := n; i > 0; i >>= 1`. -/
def bitsLen : Nat → Nat → Nat
  | 0, _ => 0
  | fuel + 1, n => if n = 0 then 0 else bitsLen fuel (n / 2) + 1

/-! ### Go 1.19 and later: pattern-defeating quicksort -/

/-- Go `type sortedHint int`. -/
inductive sortedHint where
  | unknownHint
  | increasingHint
  | decreasingHint
deriving DecidableEq, Repr

/-- The main loop of `partition_func`; returns the slice and the final `j`. -/
def partitionLoop (less : LessFactory) (a : Nat) : Nat → List Card → Nat → Nat → List Card × Nat
  | 0, data, _, j => (data, j)
  | fuel + 1, data, i, j =>
    let i := scanRight (fun i => less data i a) j data.length i
    let j := scanLeft (fun j => !less data j a) i data.length j
    if j < i then (data, j)
    else partitionLoop less a fuel (Swap data i j) (i + 1) (j - 1)

/-- Go `func partition_func(data lessSwap, a, b, pivot int) (newpivot int,
alreadyPartitioned bool)`, returned together with the slice. -/
def partition_func (less : LessFactory) (data : List Card) (a b pivot : Nat) :
    List Card × Nat × Bool :=
  let data := Swap data a pivot
  let i := a + 1
  let j := b - 1
  let i := scanRight (fun i => less data i a) j data.length i
  let j := scanLeft (fun j => !less data j a) i data.length j
  if j < i then (Swap data j a, j, true)
  else
    let data := Swap data i j
    let r := partitionLoop less a data.length data (i + 1) (j - 1)
    (Swap r.1 r.2 a, r.2, false)

/-- The loop of `partitionEqual_func`; returns the slice and the final `i`. -/
def partitionEqualLoop (less : LessFactory) (a : Nat) :
    Nat → List Card → Nat → Nat → List Card × Nat
  | 0, data, i, _ => (data, i)
  | fuel + 1, data, i, j =>
    let i := scanRight (fun i => !less data a i) j data.length i
    let j := scanLeft (fun j => less data a j) i data.length j
    if j < i then (data, i)
    else partitionEqualLoop less a fuel (Swap data i j) (i + 1) (j - 1)

/-- Go `func partitionEqual_func(data lessSwap, a, b, pivot int) (newpivot int)`,
returned together with the slice. -/
def partitionEqual_func (less : LessFactory) (data : List Card) (a b pivot : Nat) :
    List Card × Nat :=
  let data := Swap data a pivot
  partitionEqualLoop less a data.length data (a + 1) (b - 1)

/-- The loop `for j := i - 1; j >= 1; j--` of `partialInsertionSort_func`,
which stops at the first `j` with `!data.Less(j, j-1)`. -/
def shiftSmaller (less : LessFactory) : Nat → List Card → List Card
  | 0, data => data
  | j + 1, data =>
    if !less data (j + 1) j then data else shiftSmaller less j (Swap data (j + 1) j)

/-- The loop `for j := i + 1; j < b; j++` of `partialInsertionSort_func`,
which stops at the first `j` with `!data.Less(j, j-1)`. -/
def shiftGreater (less : LessFactory) (b : Nat) : Nat → Nat → List Card → List Card
  | 0, _, data => data
  | fuel + 1, j, data =>
    if j < b then
      if !less data j (j - 1) then data
      else shiftGreater less b fuel (j + 1) (Swap data j (j - 1))
    else data

/-- The loop `for j := 0; j < maxSteps; j++` of `partialInsertionSort_func`. -/
def partialInsertionSortLoop (less : LessFactory) (a b : Nat) :
    Nat → Nat → List Card → List Card × Bool
  | 0, _, data => (data, false)
  | steps + 1, i, data =>
    let i := scanUp (fun i => !less data i (i - 1)) b data.length i
    if i = b then (data, true)
    else if b - a < 50 then (data, false)
    else
      let data := Swap data i (i - 1)
      let data := if 2 ≤ i - a then shiftSmaller less (i - 1) data else data
      let data := if 2 ≤ b - i then shiftGreater less b data.length (i + 1) data else data
      partialInsertionSortLoop less a b steps i data

/-- Go `func partialInsertionSort_func(data lessSwap, a, b int) bool`
(`maxSteps = 5`, `shortestShifting = 50`), returned together with the slice. -/
def partialInsertionSort_func (less : LessFactory) (data : List Card) (a b : Nat) :
    List Card × Bool :=
  partialInsertionSortLoop less a b 5 (a + 1) data

/-- Go `func breakPatterns_func(data lessSwap, a, b int)`.  The three
positions come from a pseudo-random generator seeded with the length; its step
`random.Next()` is the argument `next`. -/
def breakPatterns_func (next : Nat → Nat) (data : List Card) (a b : Nat) : List Card :=
  let length := b - a
  if 8 ≤ length then
    let modulus := 2 ^ bitsLen length length
    let idx := a + (length / 4) * 2 - 1
    ((List.range 3).foldl
      (fun (st : List Card × Nat) i =>
        let random := next st.2
        let other := random % modulus
        let other := if length ≤ other then other - length else other
        (Swap st.1 (idx - 1 + i) (a + other), random))
      (data, length)).1
  else data

/-- Go `func order2_func(data lessSwap, a, b int, swaps *int) (int, int)`. -/
def order2_func (less : LessFactory) (data : List Card) (a b swaps : Nat) : Nat × Nat × Nat :=
  if less data b a then (b, a, swaps + 1) else (a, b, swaps)

/-- Go `func median_func(data lessSwap, a, b, c int, swaps *int) int`. -/
def median_func (less : LessFactory) (data : List Card) (a b c swaps : Nat) : Nat × Nat :=
  let r1 := order2_func less data a b swaps
  let r2 := order2_func less data r1.2.1 c r1.2.2
  let r3 := order2_func less data r1.1 r2.1 r2.2.2
  (r3.2.1, r3.2.2)

/-- Go `func medianAdjacent_func(data lessSwap, a int, swaps *int) int`. -/
def medianAdjacent_func (less : LessFactory) (data : List Card) (a swaps : Nat) : Nat × Nat :=
  median_func less data (a - 1) a (a + 1) swaps

/-- Go `func choosePivot_func(data lessSwap, a, b int) (pivot int, hint sortedHint)`
(`shortestNinther = 50`, `maxSwaps = 4 * 3`). -/
def choosePivot_func (less : LessFactory) (data : List Card) (a b : Nat) : Nat × sortedHint :=
  let l := b - a
  let i := a + l / 4 * 1
  let j := a + l / 4 * 2
  let k := a + l / 4 * 3
  let r :=
    if 8 ≤ l then
      if 50 ≤ l then
        let ri := medianAdjacent_func less data i 0
        let rj := medianAdjacent_func less data j ri.2
        let rk := medianAdjacent_func less data k rj.2
        median_func less data ri.1 rj.1 rk.1 rk.2
      else median_func less data i j k 0
    else (j, 0)
  if r.2 = 0 then (r.1, sortedHint.increasingHint)
  else if r.2 = 12 then (r.1, sortedHint.decreasingHint)
  else (r.1, sortedHint.unknownHint)

/-- Go `func reverseRange_func(data lessSwap, a, b int)`. -/
def reverseRange_func (data : List Card) (a b : Nat) : List Card :=
  (List.range ((b - a) / 2)).foldl (fun data k => Swap data (a + k) (b - 1 - k)) data

/-- Go `func pdqsort_func(data lessSwap, a, b, limit int)` (`maxInsertion = 12`).
One unit of fuel is spent per round of its `for` loop and per recursive call;
`wasBalanced` and `wasPartitioned` are the loop's two flags. -/
def pdqsort_func (next : Nat → Nat) (less : LessFactory) :
    Nat → List Card → Nat → Nat → Nat → Bool → Bool → Option (List Card)
  | 0, _, _, _, _, _, _ => none
  | fuel + 1, data, a, b, limit, wasBalanced, wasPartitioned =>
    let length := b - a
    if length ≤ 12 then some (insertionSort_func less data a b)
    else if limit = 0 then some (heapSort_func less data a b)
    else
      let data := if !wasBalanced then breakPatterns_func next data a b else data
      let limit := if !wasBalanced then limit - 1 else limit
      let ph := choosePivot_func less data a b
      let data := if ph.2 = sortedHint.decreasingHint then reverseRange_func data a b else data
      let pivot := if ph.2 = sortedHint.decreasingHint then (b - 1) - (ph.1 - a) else ph.1
      let hint := if ph.2 = sortedHint.decreasingHint then sortedHint.increasingHint else ph.2
      let tried :=
        if wasBalanced && wasPartitioned && hint = sortedHint.increasingHint then
          partialInsertionSort_func less data a b
        else (data, false)
      if tried.2 then some tried.1
      else
        let data := tried.1
        if 0 < a && !less data (a - 1) pivot then
          let r := partitionEqual_func less data a b pivot
          pdqsort_func next less fuel r.1 r.2 b limit wasBalanced wasPartitioned
        else
          let r := partition_func less data a b pivot
          let mid := r.2.1
          let wasPartitioned := r.2.2
          let leftLen := mid - a
          let rightLen := b - mid
          let balanceThreshold := length / 8
          if leftLen < rightLen then
            (pdqsort_func next less fuel r.1 a mid limit true true).bind fun data =>
              pdqsort_func next less fuel data (mid + 1) b limit
                (decide (balanceThreshold ≤ leftLen)) wasPartitioned
          else
            (pdqsort_func next less fuel r.1 (mid + 1) b limit true true).bind fun data =>
              pdqsort_func next less fuel data a mid limit
                (decide (balanceThreshold ≤ rightLen)) wasPartitioned

/-- Go 1.19 and later, `func Slice(x any, less func(i, j int) bool)`:
`pdqsort_func(lessSwap{less, swap}, 0, length, bits.Len(uint(length)))`. -/
def Slice_go119 (next : Nat → Nat) (less : LessFactory) (x : List Card) : Option (List Card) :=
  pdqsort_func next less (x.length + 1) x 0 x.length (bitsLen x.length x.length) true true

/-- The runs of `pdqsort_func` that never reach `breakPatterns_func`: the
same routine, except that it stops with `none` where `pdqsort_func` would
break patterns.  A result of this routine is the result of `pdqsort_func`
whatever the pseudo-random generator (`pdqsort_of_unbroken`). -/
def pdqsortUnbroken (less : LessFactory) :
    Nat → List Card → Nat → Nat → Nat → Bool → Bool → Option (List Card)
  | 0, _, _, _, _, _, _ => none
  | fuel + 1, data, a, b, limit, wasBalanced, wasPartitioned =>
    let length := b - a
    if length ≤ 12 then some (insertionSort_func less data a b)
    else if limit = 0 then some (heapSort_func less data a b)
    else if !wasBalanced then none
    else
      let ph := choosePivot_func less data a b
      let data := if ph.2 = sortedHint.decreasingHint then reverseRange_func data a b else data
      let pivot := if ph.2 = sortedHint.decreasingHint then (b - 1) - (ph.1 - a) else ph.1
      let hint := if ph.2 = sortedHint.decreasingHint then sortedHint.increasingHint else ph.2
      let tried :=
        if wasBalanced && wasPartitioned && hint = sortedHint.increasingHint then
          partialInsertionSort_func less data a b
        else (data, false)
      if tried.2 then some tried.1
      else
        let data := tried.1
        if 0 < a && !less data (a - 1) pivot then
          let r := partitionEqual_func less data a b pivot
          pdqsortUnbroken less fuel r.1 r.2 b limit wasBalanced wasPartitioned
        else
          let r := partition_func less data a b pivot
          let mid := r.2.1
          let wasPartitioned := r.2.2
          let leftLen := mid - a
          let rightLen := b - mid
          let balanceThreshold := length / 8
          if leftLen < rightLen then
            (pdqsortUnbroken less fuel r.1 a mid limit true true).bind fun data =>
              pdqsortUnbroken less fuel data (mid + 1) b limit
                (decide (balanceThreshold ≤ leftLen)) wasPartitioned
          else
            (pdqsortUnbroken less fuel r.1 (mid + 1) b limit true true).bind fun data =>
              pdqsortUnbroken less fuel data a mid limit
                (decide (balanceThreshold ≤ rightLen)) wasPartitioned

/-! ### Up to Go 1.18: quicksort -/

/-- Go `func medianOfThree_func(data lessSwap, m1, m0, m2 int)`. -/
def medianOfThree_func (less : LessFactory) (data : List Card) (m1 m0 m2 : Nat) : List Card :=
  let data := if less data m1 m0 then Swap data m1 m0 else data
  if less data m2 m1 then
    let data := Swap data m2 m1
    if less data m1 m0 then Swap data m1 m0 else data
  else data

/-- The main loop of `doPivot_func`; returns the slice and the final `b`, `c`. -/
def doPivotLoop (less : LessFactory) (pivot : Nat) :
    Nat → List Card → Nat → Nat → List Card × Nat × Nat
  | 0, data, b, c => (data, b, c)
  | fuel + 1, data, b, c =>
    let b := scanUp (fun b => !less data pivot b) c data.length b
    let c := scanDown (fun c1 => less data pivot c1) b data.length c
    if c ≤ b then (data, b, c)
    else doPivotLoop less pivot fuel (Swap data b (c - 1)) (b + 1) (c - 1)

/-- The loop of `doPivot_func` that guards against many duplicates; returns
the slice and the final `b`. -/
def doPivotProtect (less : LessFactory) (pivot : Nat) :
    Nat → List Card → Nat → Nat → List Card × Nat
  | 0, data, _, b => (data, b)
  | fuel + 1, data, a, b =>
    let b := scanDown (fun b1 => !less data b1 pivot) a data.length b
    let a := scanUp (fun a => less data a pivot) b data.length a
    if b ≤ a then (data, b)
    else doPivotProtect less pivot fuel (Swap data a (b - 1)) (a + 1) (b - 1)

/-- Go `func doPivot_func(data lessSwap, lo, hi int) (midlo, midhi int)`,
returned together with the slice. -/
def doPivot_func (less : LessFactory) (data : List Card) (lo hi : Nat) : List Card × Nat × Nat :=
  let m := (lo + hi) / 2
  let data :=
    if 40 < hi - lo then
      let s := (hi - lo) / 8
      let data := medianOfThree_func less data lo (lo + s) (lo + 2 * s)
      let data := medianOfThree_func less data m (m - s) (m + s)
      medianOfThree_func less data (hi - 1) (hi - 1 - s) (hi - 1 - 2 * s)
    else data
  let data := medianOfThree_func less data lo m (hi - 1)
  let pivot := lo
  let a := scanUp (fun a => less data a pivot) (hi - 1) data.length (lo + 1)
  let r := doPivotLoop less pivot data.length data a (hi - 1)
  let data := r.1
  let b := r.2.1
  let c := r.2.2
  let probe := !decide (hi - c < 5) && decide (hi - c < (hi - lo) / 4)
  -- the three probes for cards equal to the pivot
  let dup1 := probe && !less data pivot (hi - 1)
  let data1 := if dup1 then Swap data c (hi - 1) else data
  let c := if dup1 then c + 1 else c
  let dup2 := probe && !less data1 (b - 1) pivot
  let b := if dup2 then b - 1 else b
  let dup3 := probe && !less data1 m pivot
  let data3 := if dup3 then Swap data1 m (b - 1) else data1
  let b := if dup3 then b - 1 else b
  let dups := (if dup1 then 1 else 0) + (if dup2 then 1 else 0) + (if dup3 then 1 else 0)
  let protect := if probe then decide (1 < dups) else decide (hi - c < 5)
  let r := if protect then doPivotProtect less pivot data3.length data3 a b else (data3, b)
  (Swap r.1 pivot (r.2 - 1), r.2 - 1, c)

/-- The tail of `quickSort_func`, for at most 12 cards: one ShellSort pass
with gap 6, then insertion sort. -/
def quickSortTail (less : LessFactory) (data : List Card) (a b : Nat) : List Card :=
  if 1 < b - a then
    let data := (List.range' (a + 6) (b - (a + 6))).foldl
      (fun data i => if less data i (i - 6) then Swap data i (i - 6) else data) data
    insertionSort_func less data a b
  else data

/-- Go `func quickSort_func(data lessSwap, a, b, maxDepth int)`.  One unit of
fuel is spent per round of its `for` loop and per recursive call. -/
def quickSort_func (less : LessFactory) : Nat → List Card → Nat → Nat → Nat → Option (List Card)
  | 0, _, _, _, _ => none
  | fuel + 1, data, a, b, maxDepth =>
    if 12 < b - a then
      if maxDepth = 0 then some (heapSort_func less data a b)
      else
        let maxDepth := maxDepth - 1
        let r := doPivot_func less data a b
        let mlo := r.2.1
        let mhi := r.2.2
        if mlo - a < b - mhi then
          (quickSort_func less fuel r.1 a mlo maxDepth).bind fun data =>
            quickSort_func less fuel data mhi b maxDepth
        else
          (quickSort_func less fuel r.1 mhi b maxDepth).bind fun data =>
            quickSort_func less fuel data a mlo maxDepth
    else some (quickSortTail less data a b)

/-- Go `func maxDepth(n int) int`: twice the number of binary digits of `n`. -/
def maxDepth (n : Nat) : Nat := bitsLen n n * 2

/-- Up to Go 1.18, `func Slice(slice interface{}, less func(i, j int) bool)`:
`quickSort_func(lessSwap{less, swap}, 0, length, maxDepth(length))`. -/
def Slice_go118 (less : LessFactory) (x : List Card) : Option (List Card) :=
  quickSort_func less (x.length + 1) x 0 x.length (maxDepth x.length)

/-- The slice after `sort.Slice` has run (the slice itself if the fuel of the
embedding ran out). -/
def sorted119 (next : Nat → Nat) : LessFactory → List Card → List Card :=
  fun less x => (Slice_go119 next less x).getD x

/-- The slice after the `sort.Slice` of Go 1.18 and earlier has run (the slice
itself if the fuel of the embedding ran out). -/
def sorted118 : LessFactory → List Card → List Card :=
  fun less x => (Slice_go118 less x).getD x

/-! ## Some cards and decks -/

def kingOfHearts : Card := { Suit := Heart, Rank := King }

def aceOfSpades : Card := { Suit := Spade, Rank := Ace }

/-- The Joker that `Jokers` tags with `i`. -/
def joker (i : Int) : Card := { Suit := Joker, Rank := i }

/-- The spades from the Ace up to the card of rank `n`. -/
def spadesUpTo (n : Nat) : List Card :=
  (List.range n).map fun k => { Suit := Spade, Rank := (k : Int) + 1 }

/-- Thirteen cards: the King of Hearts, the Joker tagged 0, then the spades
from the Ace to the Jack. -/
def tieFirst : List Card := [kingOfHearts, joker 0] ++ spadesUpTo 11

/-- The predicate `c.Suit < Heart || c.Rank < Six`. -/
def belowSixOfHearts (c : Card) : Bool := decide (c.Suit < Heart) || decide (c.Rank < Six)

/-- The deck `New(Filter(belowSixOfHearts), Jokers(6))`: the hearts from the
Six to the King, then the Jokers tagged 0 to 5; fourteen cards in the order
of their keys. -/
def heartsAndJokers : List Card := New [Filter belowSixOfHearts, Jokers 6]

/-- The fourteen cards of `heartsAndJokers` with the King of Hearts and the
Joker tagged 0, which have the same key, in each other's place. -/
def heartsAndJokersSwapped : List Card :=
  (heartsAndJokers.take 7) ++ [joker 0, kingOfHearts] ++ (heartsAndJokers.drop 9)

/-- A draw of `Perm(52)` that starts 40, 35: those two, then the other fifty
numbers below 52 in increasing order. -/
def drawFortyThirtyFive : List Nat :=
  [40, 35] ++ (List.range 52).filter (fun k => k != 40 && k != 35)

/-- The cards that `New` and `Jokers` put in a deck: a card of one of the four
suits with a rank from Ace to King, or a Joker with a tag from 0 up to (not
including) `2^63 - 52`, the tags whose key fits a Go `int`. -/
def isDeckCard (c : Card) : Bool :=
  (decide (Spade ≤ c.Suit) && decide (c.Suit ≤ Heart) &&
    decide (Ace ≤ c.Rank) && decide (c.Rank ≤ King)) ||
  (decide (c.Suit = Joker) && decide (0 ≤ c.Rank) && decide (c.Rank < 2 ^ 63 - 52))

/-- The predicate `card.Rank < k` on cards. -/
def rankBelow (k : Int) (card : Card) : Bool := decide (card.Rank < k)

/-- The test `c.Suit == Joker` on cards. -/
def isJoker (c : Card) : Bool := decide (c.Suit = Joker)

/-- The 52 cards in suit-major, rank-minor order, written as the comprehension
`[Card{s, r} | s ← [Spade, Diamond, Club, Heart], r ← Ace..King]`. -/
def standardOrder : List Card :=
  [Spade, Diamond, Club, Heart].flatMap fun s =>
    [Ace, Two, Three, Four, Five, Six, Seven, Eight, Nine, Ten, Jack, Queen, King].map
      fun r => { Suit := s, Rank := r }

/-! ## Construction -/

/-- C1: `New()` with no options is exactly the comprehension over the suits
Spade, Diamond, Club, Heart and, inside each suit, the ranks Ace to King; it
has 52 cards and no card occurs at two positions. -/
theorem C1_new_is_standard_order :
    New [] = standardOrder ∧ (New []).length = 52 ∧ (New []).Nodup := by
  decide

/-- C2: `New(o1, ..., ok)` is `ok(...(o2(o1(New())))...)`: the options are
applied left to right, each to the result of the one before, starting from
`New()`, and the result of the last one is returned as it is.  The second
part is the same fact read one option at a time. -/
theorem C2_new_applies_options_in_order (opts : List (List Card → List Card)) :
    New opts = opts.foldl (fun cards opt => opt cards) (New []) ∧
    (∀ (o : List Card → List Card), New (opts ++ [o]) = o (New opts)) ∧
    (∀ (o1 o2 o3 : List Card → List Card), New [o1, o2, o3] = o3 (o2 (o1 (New [])))) := by
  refine ⟨rfl, ?_, ?_⟩
  · intro o
    simp [New, List.foldl_append]
  · intro o1 o2 o3
    rfl

theorem New_snoc (opts : List (List Card → List Card)) (o : List Card → List Card) :
    New (opts ++ [o]) = o (New opts) := by
  simp [New, List.foldl_append]

theorem New_pair (o1 o2 : List Card → List Card) : New [o1, o2] = o2 (New [o1]) := rfl

theorem New_single (o : List Card → List Card) : New [o] = o (New []) := rfl

/-! ## Sorting: the comparator and the contract -/

theorem wrapInt_of_inRange {x : Int} (h1 : -2 ^ 63 ≤ x) (h2 : x < 2 ^ 63) : wrapInt x = x := by
  unfold wrapInt
  rw [Int.emod_eq_of_lt (by omega) (by omega)]
  omega

theorem ltRank_strictWeakOrder : StrictWeakOrder ltRank := by
  refine ⟨?_, ?_, ?_⟩
  · intro a
    simp [ltRank]
  · intro a b c hab hbc
    simp only [ltRank, decide_eq_true_eq] at *
    omega
  · intro a b c hab hbc
    simp only [ltRank, decide_eq_false_iff_not] at *
    omega

theorem Less_comparesBy : ComparesBy Less ltRank := by
  intro cur i j _ _
  rfl

theorem ltRank_eq_false_iff (a b : Card) : ltRank b a = false ↔ absRank a ≤ absRank b := by
  simp [ltRank]

/-- Insertion sort meets the contract of `sort.Slice`. -/
theorem insertionSlice_sortsSlices : SortsSlices insertionSlice := by
  intro less lt hlt hless x
  have hr : (fun a b : Card => less [a, b] 1 0 = false) = (fun a b => lt b a = false) := by
    funext a b
    have h := hless [a, b] 1 0 (by simp) (by simp)
    simp only [List.getD_cons_succ, List.getD_cons_zero] at h
    rw [h]
  obtain ⟨hirr, htr, hntr⟩ := hlt
  have htot : IsTotal Card (fun a b => lt b a = false) := by
    constructor
    intro a b
    by_cases h : lt b a = false
    · exact Or.inl h
    · right
      have hba : lt b a = true := by simpa using h
      by_contra hab
      have hab2 : lt a b = true := by simpa using hab
      have := htr a b a hab2 hba
      rw [hirr a] at this
      exact Bool.noConfusion this
  have htrans : IsTrans Card (fun a b => lt b a = false) := by
    constructor
    intro a b c hab hbc
    exact hntr c b a hbc hab
  unfold insertionSlice
  constructor
  · exact List.perm_insertionSort _ x
  · have hs := @List.sorted_insertionSort Card (fun a b => lt b a = false) _ htot htrans x
    have e : ∀ (r1 r2 : Card → Card → Prop) [DecidableRel r1] [DecidableRel r2], r1 = r2 →
        List.insertionSort r1 x = List.insertionSort r2 x := by
      intro r1 r2 _ _ e
      subst e
      congr
    rw [e _ _ hr]
    exact hs

/-- Insertion sort of the reversed slice meets the contract of `sort.Slice`. -/
theorem reversingSlice_sortsSlices : SortsSlices reversingSlice := by
  intro less lt hlt hless x
  have h := insertionSlice_sortsSlices less lt hlt hless x.reverse
  exact ⟨h.1.trans (List.reverse_perm x), h.2⟩

theorem defaultSort_perm {sortSlice : LessFactory → List Card → List Card}
    (h : SortsSlices sortSlice) (d : List Card) : (DefaultSort sortSlice d).Perm d :=
  (h Less ltRank ltRank_strictWeakOrder Less_comparesBy d).1

theorem defaultSort_sorted {sortSlice : LessFactory → List Card → List Card}
    (h : SortsSlices sortSlice) (d : List Card) :
    (DefaultSort sortSlice d).Pairwise (fun a b => absRank a ≤ absRank b) := by
  have hs := (h Less ltRank ltRank_strictWeakOrder Less_comparesBy d).2
  exact hs.imp (fun {a b} hab => (ltRank_eq_false_iff a b).1 hab)

/-- C3: whatever routine `sort.Slice` is, as long as it does what its
documentation says, `DefaultSort(d)` holds the cards of `d` with the same
multiplicities (so it has the same length) and its keys never decrease from
one position to a later one.  The key is `absRank`, which is
`suit * 13 + rank` for every card whose key fits a Go `int`. -/
theorem C3_defaultSort_sorted_permutation
    (sortSlice : LessFactory → List Card → List Card) (h : SortsSlices sortSlice)
    (d : List Card) :
    (DefaultSort sortSlice d).Perm d ∧
    (∀ c : Card, (DefaultSort sortSlice d).count c = d.count c) ∧
    (DefaultSort sortSlice d).length = d.length ∧
    (∀ i j : Nat, i < j → j < (DefaultSort sortSlice d).length →
      absRank ((DefaultSort sortSlice d).getD i default) ≤
        absRank ((DefaultSort sortSlice d).getD j default)) ∧
    (∀ c : Card, -2 ^ 63 ≤ c.Suit * 13 + c.Rank → c.Suit * 13 + c.Rank < 2 ^ 63 →
      absRank c = c.Suit * 13 + c.Rank) := by
  have hp := defaultSort_perm h d
  have hs := defaultSort_sorted h d
  refine ⟨hp, fun c => hp.count_eq c, hp.length_eq, ?_, ?_⟩
  · intro i j hij hj
    rw [List.pairwise_iff_getElem] at hs
    have hi : i < (DefaultSort sortSlice d).length := by omega
    have := hs i j hi hj hij
    simp only [List.getD_eq_getElem?_getD, List.getElem?_eq_getElem hi,
      List.getElem?_eq_getElem hj, Option.getD_some]
    exact this
  · intro c h1 h2
    exact wrapInt_of_inRange h1 h2

/-- Witness for C3: insertion sort as the routine, on the deck made of the
King of Hearts, the Joker tagged 0 and the spades up to the Jack. -/
theorem C3_witness :
    SortsSlices insertionSlice ∧
    (DefaultSort insertionSlice tieFirst).Perm tieFirst ∧
    (∀ c : Card, (DefaultSort insertionSlice tieFirst).count c = tieFirst.count c) ∧
    (DefaultSort insertionSlice tieFirst).length = tieFirst.length ∧
    (∀ i j : Nat, i < j → j < (DefaultSort insertionSlice tieFirst).length →
      absRank ((DefaultSort insertionSlice tieFirst).getD i default) ≤
        absRank ((DefaultSort insertionSlice tieFirst).getD j default)) ∧
    (∀ c : Card, -2 ^ 63 ≤ c.Suit * 13 + c.Rank → c.Suit * 13 + c.Rank < 2 ^ 63 →
      absRank c = c.Suit * 13 + c.Rank) :=
  ⟨insertionSlice_sortsSlices,
    C3_defaultSort_sorted_permutation insertionSlice insertionSlice_sortsSlices tieFirst⟩

/-! ## The library routines on particular decks -/

theorem pdqsort_of_unbroken (next : Nat → Nat) (less : LessFactory) :
    ∀ (fuel : Nat) (data : List Card) (a b limit : Nat) (wb wp : Bool) (r : List Card),
      pdqsortUnbroken less fuel data a b limit wb wp = some r →
      pdqsort_func next less fuel data a b limit wb wp = some r := by
  intro fuel
  induction fuel with
  | zero =>
    intro data a b limit wb wp r h
    simp [pdqsortUnbroken] at h
  | succ fuel ih =>
    intro data a b limit wb wp r h
    rw [pdqsortUnbroken] at h
    rw [pdqsort_func]
    by_cases h1 : b - a ≤ 12
    · simpa [h1] using h
    by_cases h2 : limit = 0
    · simpa [h1, h2] using h
    cases wb with
    | false => simp [h1, h2] at h
    | true =>
      simp only [h1, h2, if_false, Bool.not_true, Bool.false_eq_true, Bool.true_and] at h ⊢
      split_ifs at h ⊢
      all_goals first
        | exact h
        | exact ih _ _ _ _ _ _ _ h
        | (rw [Option.bind_eq_some] at h ⊢
           obtain ⟨x, hx, hr⟩ := h
           exact ⟨x, ih _ _ _ _ _ _ _ hx, ih _ _ _ _ _ _ _ hr⟩)

set_option maxRecDepth 100000 in
theorem unbroken_tieFirst :
    pdqsortUnbroken Less (tieFirst.length + 1) tieFirst 0 tieFirst.length
      (bitsLen tieFirst.length tieFirst.length) true true =
      some (spadesUpTo 11 ++ [joker 0, kingOfHearts]) := by
  decide

theorem go119_tieFirst (next : Nat → Nat) :
    Slice_go119 next Less tieFirst = some (spadesUpTo 11 ++ [joker 0, kingOfHearts]) :=
  pdqsort_of_unbroken next Less _ _ _ _ _ _ _ _ unbroken_tieFirst

set_option maxRecDepth 100000 in
theorem go118_tieFirst :
    Slice_go118 Less tieFirst = some (spadesUpTo 11 ++ [joker 0, kingOfHearts]) := by
  decide

set_option maxRecDepth 100000 in
theorem unbroken_oneJoker :
    pdqsortUnbroken Less ((New [Jokers 1]).length + 1) (New [Jokers 1]) 0 (New [Jokers 1]).length
      (bitsLen (New [Jokers 1]).length (New [Jokers 1]).length) true true =
      some (New [Jokers 1]) := by
  decide

theorem go119_oneJoker (next : Nat → Nat) :
    Slice_go119 next Less (New [Jokers 1]) = some (New [Jokers 1]) :=
  pdqsort_of_unbroken next Less _ _ _ _ _ _ _ _ unbroken_oneJoker

set_option maxRecDepth 100000 in
theorem go118_oneJoker : Slice_go118 Less (New [Jokers 1]) = some (New [Jokers 1]) := by
  decide

theorem tieFirst_ties_swapped :
    ¬ KeepsTies tieFirst (spadesUpTo 11 ++ [joker 0, kingOfHearts]) := by
  intro h
  have h52 := h 52
  revert h52
  decide

/-! ## Stability -/

/-- C4, counterexample: on the thirteen cards King of Hearts, Joker 0, Ace to
Jack of Spades, `sort.Slice` returns the spades, then the Joker, then the
King, with the routine of Go 1.19 and later (whatever its pseudo-random
generator) and with the routine of Go 1.18 and earlier alike.  The King and
the Joker have the same key, 52, and come out in the opposite order.  So
they do with insertion sort of the reversed slice, a routine proved to meet
the contract of `sort.Slice`: the contract does not give stability. -/
theorem C4_counterexample :
    absRank kingOfHearts = absRank (joker 0) ∧
    tieFirst = [kingOfHearts, joker 0] ++ spadesUpTo 11 ∧
    (∀ next : Nat → Nat,
      Slice_go119 next Less tieFirst = some (spadesUpTo 11 ++ [joker 0, kingOfHearts]) ∧
      DefaultSort (sorted119 next) tieFirst = spadesUpTo 11 ++ [joker 0, kingOfHearts] ∧
      ¬ KeepsTies tieFirst (DefaultSort (sorted119 next) tieFirst)) ∧
    Slice_go118 Less tieFirst = some (spadesUpTo 11 ++ [joker 0, kingOfHearts]) ∧
    DefaultSort sorted118 tieFirst = spadesUpTo 11 ++ [joker 0, kingOfHearts] ∧
    ¬ KeepsTies tieFirst (DefaultSort sorted118 tieFirst) ∧
    (SortsSlices reversingSlice ∧ ¬ KeepsTies tieFirst (DefaultSort reversingSlice tieFirst)) := by
  have e119 : ∀ next : Nat → Nat,
      DefaultSort (sorted119 next) tieFirst = spadesUpTo 11 ++ [joker 0, kingOfHearts] := by
    intro next
    simp only [DefaultSort, sorted119, go119_tieFirst next, Option.getD_some]
  have e118 : DefaultSort sorted118 tieFirst = spadesUpTo 11 ++ [joker 0, kingOfHearts] := by
    simp only [DefaultSort, sorted118, go118_tieFirst, Option.getD_some]
  have erev : DefaultSort reversingSlice tieFirst =
      spadesUpTo 11 ++ [joker 0, kingOfHearts] := by
    decide
  refine ⟨by decide, rfl, fun next => ⟨go119_tieFirst next, e119 next, ?_⟩,
    go118_tieFirst, e118, ?_, reversingSlice_sortsSlices, ?_⟩
  · rw [e119 next]
    exact tieFirst_ties_swapped
  · rw [e118]
    exact tieFirst_ties_swapped
  · rw [erev]
    exact tieFirst_ties_swapped

theorem eq_of_perm_of_all_equal {l1 l2 : List Card} (hp : l1.Perm l2)
    (heq : ∀ a ∈ l2, ∀ b ∈ l2, a = b) : l1 = l2 := by
  cases l2 with
  | nil => exact hp.eq_nil
  | cons c t =>
    have h2 : c :: t = List.replicate (c :: t).length c := by
      rw [List.eq_replicate_iff]
      exact ⟨rfl, fun b hb => heq b hb c (List.mem_cons_self c t)⟩
    rw [h2] at hp ⊢
    exact List.perm_replicate.1 hp

/-- Two arrangements of the same cards that are both in key order are the same
list, provided cards with the same key are the same card. -/
theorem eq_of_perm_of_sorted_of_ties {l1 l2 : List Card} (hp : l1.Perm l2)
    (h1 : l1.Pairwise (fun a b => absRank a ≤ absRank b))
    (h2 : l2.Pairwise (fun a b => absRank a ≤ absRank b))
    (hinj : ∀ a ∈ l1, ∀ b ∈ l1, absRank a = absRank b → a = b) : l1 = l2 := by
  have hanti : IsAntisymm Card (fun a b => absRank a < absRank b ∨ a = b) := by
    constructor
    intro a b hab hba
    rcases hab with hab | hab
    · rcases hba with hba | hba
      · omega
      · exact hba.symm
    · exact hab
  have s1 : l1.Sorted (fun a b => absRank a < absRank b ∨ a = b) := by
    refine List.Pairwise.imp_of_mem ?_ h1
    intro a b ha hb hab
    rcases lt_or_eq_of_le hab with h | h
    · exact Or.inl h
    · exact Or.inr (hinj a ha b hb h)
  have s2 : l2.Sorted (fun a b => absRank a < absRank b ∨ a = b) := by
    refine List.Pairwise.imp_of_mem ?_ h2
    intro a b ha hb hab
    rcases lt_or_eq_of_le hab with h | h
    · exact Or.inl h
    · exact Or.inr (hinj a (hp.mem_iff.2 ha) b (hp.mem_iff.2 hb) h)
  exact @List.eq_of_perm_of_sorted Card _ hanti l1 l2 hp s1 s2

/-- C4, amended: for every deck `d` and key `k`, the cards of key `k` in
`DefaultSort(d)` are those of `d` with the same multiplicities; they are in
the order they had in `d` when cards of `d` with equal keys are equal cards.
In the deck `New(Jokers(1), DefaultSort)` the King of Hearts stays before the
Joker tagged 0, with the `sort.Slice` of Go 1.19 and later and with that of
Go 1.18 and earlier. -/
theorem C4_defaultSort_keeps_cards_of_each_key
    (sortSlice : LessFactory → List Card → List Card) (h : SortsSlices sortSlice)
    (d : List Card) :
    (∀ k : Int, ((DefaultSort sortSlice d).filter (fun c => absRank c == k)).Perm
      (d.filter (fun c => absRank c == k))) ∧
    ((∀ a ∈ d, ∀ b ∈ d, absRank a = absRank b → a = b) →
      KeepsTies d (DefaultSort sortSlice d)) ∧
    (∀ next : Nat → Nat, New [Jokers 1, DefaultSort (sorted119 next)] = New [Jokers 1]) ∧
    New [Jokers 1, DefaultSort sorted118] = New [Jokers 1] ∧
    New [Jokers 1] = New [] ++ [joker 0] ∧
    (New []).getLast? = some kingOfHearts := by
  have hp := defaultSort_perm h d
  refine ⟨fun k => hp.filter _, ?_, ?_, ?_, by decide, by decide⟩
  · intro hties k
    apply eq_of_perm_of_all_equal (hp.filter _)
    intro a ha b hb
    rw [List.mem_filter] at ha hb
    have ea : absRank a = k := by simpa using ha.2
    have eb : absRank b = k := by simpa using hb.2
    exact hties a ha.1 b hb.1 (ea.trans eb.symm)
  · intro next
    rw [New_pair]
    simp only [DefaultSort, sorted119, go119_oneJoker next, Option.getD_some]
  · rw [New_pair]
    simp only [DefaultSort, sorted118, go118_oneJoker, Option.getD_some]

/-- Witness for C4: insertion sort as the routine, on a deck in which the
cards of equal key are equal. -/
theorem C4_witness :
    SortsSlices insertionSlice ∧
    (∀ a ∈ spadesUpTo 3 ++ spadesUpTo 2, ∀ b ∈ spadesUpTo 3 ++ spadesUpTo 2,
      absRank a = absRank b → a = b) ∧
    KeepsTies (spadesUpTo 3 ++ spadesUpTo 2)
      (DefaultSort insertionSlice (spadesUpTo 3 ++ spadesUpTo 2)) :=
  ⟨insertionSlice_sortsSlices, by decide,
    (C4_defaultSort_keeps_cards_of_each_key insertionSlice insertionSlice_sortsSlices
      (spadesUpTo 3 ++ spadesUpTo 2)).2.1 (by decide)⟩

/-! ## Jokers and the default order -/

theorem foldl_append_singleton {α β : Type} (f : β → α) (l : List β) (acc : List α) :
    l.foldl (fun acc x => acc ++ [f x]) acc = acc ++ l.map f := by
  induction l generalizing acc with
  | nil => simp
  | cons x t ih => simp [ih]

theorem Jokers_eq_append (n : Int) (cards : List Card) :
    Jokers n cards = cards ++ (List.range n.toNat).map (fun (i : Nat) => joker (i : Int)) := by
  unfold Jokers
  exact foldl_append_singleton (fun i : Nat => joker (i : Int)) (List.range n.toNat) cards

theorem absRank_numbered (c : Card) (hsuit : Spade ≤ c.Suit ∧ c.Suit ≤ Heart)
    (hrank : Ace ≤ c.Rank ∧ c.Rank ≤ King) : absRank c = c.Suit * 13 + c.Rank := by
  have h1 : @LE.le Int _ 0 c.Suit := hsuit.1
  have h2 : @LE.le Int _ c.Suit 3 := hsuit.2
  have h3 : @LE.le Int _ 1 c.Rank := hrank.1
  have h4 : @LE.le Int _ c.Rank 13 := hrank.2
  unfold absRank
  simp only [maxRank, King]
  apply wrapInt_of_inRange <;> omega

theorem absRank_joker (i : Int) (h0 : 0 ≤ i) (h1 : i < 2 ^ 63 - 52) :
    absRank (joker i) = 52 + i := by
  unfold absRank joker
  simp only [maxRank, King, Joker]
  rw [wrapInt_of_inRange] <;> omega

/-- C5, counterexample: the King of Hearts is a card of the numbered suits,
the Joker tagged 0 is the card `Jokers(1)` adds, and their keys are both 52:
the key of the King is not below that of the Joker, and `Less` does not order
the King before the Joker. -/
theorem C5_counterexample :
    kingOfHearts ∈ New [] ∧ Jokers 1 [] = [joker 0] ∧
    absRank kingOfHearts = 52 ∧ absRank (joker 0) = 52 ∧
    ¬ (absRank kingOfHearts < absRank (joker 0)) ∧
    Less [kingOfHearts, joker 0] 0 1 = false := by
  decide

/-- C5, amended: for every card `c` of the numbered suits with a rank from Ace
to King and every Joker `j` that `Jokers(n)` adds (with `n` at most
`2^63 - 52`, so that the key of a Joker fits a Go `int`), the key of `c` is at
most the key of `j`, and equal to it only for the King of Hearts and the Joker
tagged 0.  So `Less` never orders `j` before `c`, and it orders `c` before `j`
except for that one pair, which it leaves unordered. -/
theorem C5_jokers_never_before_numbered_cards (c : Card)
    (hsuit : Spade ≤ c.Suit ∧ c.Suit ≤ Heart) (hrank : Ace ≤ c.Rank ∧ c.Rank ≤ King)
    (n : Int) (hn : n ≤ 2 ^ 63 - 52) (j : Card) (hj : j ∈ Jokers n []) :
    absRank c ≤ absRank j ∧
    (absRank c = absRank j ↔ c = kingOfHearts ∧ j = joker 0) ∧
    Less [j, c] 0 1 = false ∧
    (Less [c, j] 0 1 = true ↔ ¬ (c = kingOfHearts ∧ j = joker 0)) := by
  rw [Jokers_eq_append] at hj
  simp only [List.nil_append, List.mem_map, List.mem_range] at hj
  obtain ⟨i, hi, rfl⟩ := hj
  have hi0 : (0 : Int) ≤ (i : Int) := Int.ofNat_nonneg i
  have hin : (i : Int) < n := by omega
  have hc := absRank_numbered c hsuit hrank
  have hjk := absRank_joker (i : Int) hi0 (by omega)
  have h1 : @LE.le Int _ 0 c.Suit := hsuit.1
  have h2 : @LE.le Int _ c.Suit 3 := hsuit.2
  have h3 : @LE.le Int _ 1 c.Rank := hrank.1
  have h4 : @LE.le Int _ c.Rank 13 := hrank.2
  have hking : c = kingOfHearts ↔ @Eq Int c.Suit 3 ∧ @Eq Int c.Rank 13 := by
    constructor
    · intro e
      subst e
      exact ⟨rfl, rfl⟩
    · intro e
      cases c with
      | mk r s =>
        simp only at e
        obtain ⟨e1, e2⟩ := e
        subst e1 e2
        rfl
  have hjoker : joker (i : Int) = joker 0 ↔ (i : Int) = 0 := by
    simp [joker]
  have hle : absRank c ≤ absRank (joker (i : Int)) := by
    rw [hc, hjk]
    omega
  have heq : absRank c = absRank (joker (i : Int)) ↔ c = kingOfHearts ∧ joker (i : Int) = joker 0 := by
    rw [hc, hjk, hking, hjoker]
    constructor
    · intro e
      refine ⟨⟨?_, ?_⟩, ?_⟩ <;> omega
    · rintro ⟨⟨e1, e2⟩, e3⟩
      omega
  refine ⟨hle, heq, ?_, ?_⟩
  · simp only [Less, List.getD_cons_zero, List.getD_cons_succ, decide_eq_false_iff_not]
    omega
  · simp only [Less, List.getD_cons_zero, List.getD_cons_succ, decide_eq_true_eq]
    rw [← heq]
    omega

/-- Witness for C5: the Ace of Spades and the Joker tagged 2, which
`Jokers(3)` adds. -/
theorem C5_witness :
    absRank aceOfSpades ≤ absRank (joker 2) ∧
    (absRank aceOfSpades = absRank (joker 2) ↔ aceOfSpades = kingOfHearts ∧ joker 2 = joker 0) ∧
    Less [joker 2, aceOfSpades] 0 1 = false ∧
    (Less [aceOfSpades, joker 2] 0 1 = true ↔
      ¬ (aceOfSpades = kingOfHearts ∧ joker 2 = joker 0)) :=
  C5_jokers_never_before_numbered_cards aceOfSpades (by decide) (by decide) 3 (by decide)
    (joker 2) (by decide)

/-! ## Sorting twice, sorting a fresh deck, sorting with another comparator -/

set_option maxRecDepth 100000 in
theorem go118_heartsAndJokers :
    Slice_go118 Less heartsAndJokers = some heartsAndJokersSwapped ∧
    Slice_go118 Less heartsAndJokersSwapped = some heartsAndJokers := by
  decide

/-- C6, counterexample: the deck `New(Filter(belowSixOfHearts), Jokers(6))` is
the hearts from the Six to the King followed by the Jokers 0 to 5, fourteen
cards in key order.  The `sort.Slice` of Go 1.18 and earlier returns it with
the King of Hearts and the Joker tagged 0 exchanged, and returns that deck
with the two exchanged again: the second `DefaultSort` undoes what the first
did, so sorting twice is not sorting once.  Nor is it with insertion sort of
the reversed slice, a routine proved to meet the contract of `sort.Slice`, on
the two cards King of Hearts, Joker 0: the contract does not give idempotence. -/
theorem C6_counterexample :
    heartsAndJokers.map absRank = [45, 46, 47, 48, 49, 50, 51, 52, 52, 53, 54, 55, 56, 57] ∧
    Slice_go118 Less heartsAndJokers = some heartsAndJokersSwapped ∧
    Slice_go118 Less heartsAndJokersSwapped = some heartsAndJokers ∧
    DefaultSort sorted118 heartsAndJokers = heartsAndJokersSwapped ∧
    DefaultSort sorted118 (DefaultSort sorted118 heartsAndJokers) = heartsAndJokers ∧
    DefaultSort sorted118 (DefaultSort sorted118 heartsAndJokers) ≠
      DefaultSort sorted118 heartsAndJokers ∧
    (SortsSlices reversingSlice ∧
      DefaultSort reversingSlice (DefaultSort reversingSlice [kingOfHearts, joker 0]) ≠
        DefaultSort reversingSlice [kingOfHearts, joker 0]) := by
  have e1 : DefaultSort sorted118 heartsAndJokers = heartsAndJokersSwapped := by
    simp only [DefaultSort, sorted118, go118_heartsAndJokers.1, Option.getD_some]
  have e2 : DefaultSort sorted118 heartsAndJokersSwapped = heartsAndJokers := by
    simp only [DefaultSort, sorted118, go118_heartsAndJokers.2, Option.getD_some]
  refine ⟨by decide, go118_heartsAndJokers.1, go118_heartsAndJokers.2, e1, ?_, ?_,
    reversingSlice_sortsSlices, by decide⟩
  · rw [e1, e2]
  · rw [e1, e2]
    decide

/-! ### A slice that is already in order, with Go 1.19 and later -/

theorem scanUp_all (cond : Nat → Bool) (c : Nat) :
    ∀ (fuel a : Nat), a ≤ c → c - a ≤ fuel → (∀ i, a ≤ i → i < c → cond i = true) →
      scanUp cond c fuel a = c := by
  intro fuel
  induction fuel with
  | zero =>
    intro a hac hf _
    simp only [scanUp]
    omega
  | succ fuel ih =>
    intro a hac hf hall
    simp only [scanUp]
    by_cases h : a < c
    · simp only [h, hall a (Nat.le_refl a) h, decide_True, Bool.and_self, if_true]
      exact ih (a + 1) h (by omega) (fun i hi hic => hall i (by omega) hic)
    · simp only [h, decide_False, Bool.false_and, Bool.false_eq_true, if_false]
      omega

theorem foldl_fixed {α β : Type} (f : α → β → α) (x : α) :
    ∀ l : List β, (∀ i ∈ l, f x i = x) → l.foldl f x = x := by
  intro l
  induction l with
  | nil => intro _; rfl
  | cons i t ih =>
    intro h
    simp only [List.foldl_cons]
    rw [h i (List.mem_cons_self i t)]
    exact ih (fun j hj => h j (List.mem_cons_of_mem i hj))

/-- In a slice that is in order, no card is less than a card at an earlier or
the same position. -/
theorem less_false_of_sorted {less : LessFactory} {lt : Card → Card → Bool}
    (hlt : StrictWeakOrder lt) (hless : ComparesBy less lt) {x : List Card}
    (hx : x.Pairwise (fun a b => lt b a = false)) (i j : Nat) (hij : i ≤ j)
    (hj : j < x.length) : less x j i = false := by
  have hi : i < x.length := by omega
  rw [hless x j i hj hi]
  simp only [List.getD_eq_getElem?_getD, List.getElem?_eq_getElem hi,
    List.getElem?_eq_getElem hj, Option.getD_some]
  rcases Nat.lt_or_eq_of_le hij with h | h
  · exact (List.pairwise_iff_getElem.1 hx) i j hi hj h
  · subst h
    exact hlt.1 _

theorem insertionSort_func_sorted {less : LessFactory} {lt : Card → Card → Bool}
    (hlt : StrictWeakOrder lt) (hless : ComparesBy less lt) {x : List Card}
    (hx : x.Pairwise (fun a b => lt b a = false)) :
    insertionSort_func less x 0 x.length = x := by
  unfold insertionSort_func
  apply foldl_fixed
  intro i hi
  rw [List.mem_range'_1] at hi
  cases i with
  | zero => rfl
  | succ j =>
    have h := less_false_of_sorted hlt hless hx j (j + 1) (by omega) (by omega)
    simp [insertionInner, h]

theorem order2_func_sorted {less : LessFactory} {lt : Card → Card → Bool}
    (hlt : StrictWeakOrder lt) (hless : ComparesBy less lt) {x : List Card}
    (hx : x.Pairwise (fun a b => lt b a = false)) (a b swaps : Nat) (hab : a ≤ b)
    (hb : b < x.length) : order2_func less x a b swaps = (a, b, swaps) := by
  simp [order2_func, less_false_of_sorted hlt hless hx a b hab hb]

theorem median_func_sorted {less : LessFactory} {lt : Card → Card → Bool}
    (hlt : StrictWeakOrder lt) (hless : ComparesBy less lt) {x : List Card}
    (hx : x.Pairwise (fun a b => lt b a = false)) (a b c swaps : Nat) (hab : a ≤ b)
    (hbc : b ≤ c) (hc : c < x.length) : median_func less x a b c swaps = (b, swaps) := by
  simp only [median_func]
  rw [order2_func_sorted hlt hless hx a b swaps hab (by omega)]
  simp only
  rw [order2_func_sorted hlt hless hx b c swaps hbc hc]
  simp only
  rw [order2_func_sorted hlt hless hx a b swaps hab (by omega)]

theorem choosePivot_func_sorted {less : LessFactory} {lt : Card → Card → Bool}
    (hlt : StrictWeakOrder lt) (hless : ComparesBy less lt) {x : List Card}
    (hx : x.Pairwise (fun a b => lt b a = false)) (hn : 12 < x.length) :
    (choosePivot_func less x 0 x.length).2 = sortedHint.increasingHint := by
  simp only [choosePivot_func, Nat.sub_zero, Nat.zero_add, Nat.mul_one]
  have h8 : 8 ≤ x.length := by omega
  simp only [h8, if_true]
  by_cases h50 : 50 ≤ x.length
  · simp only [h50, if_true, medianAdjacent_func]
    rw [median_func_sorted hlt hless hx _ _ _ 0 (by omega) (by omega) (by omega)]
    simp only
    rw [median_func_sorted hlt hless hx _ _ _ 0 (by omega) (by omega) (by omega)]
    simp only
    rw [median_func_sorted hlt hless hx _ _ _ 0 (by omega) (by omega) (by omega)]
    simp only
    rw [median_func_sorted hlt hless hx _ _ _ 0 (by omega) (by omega) (by omega)]
    simp
  · simp only [h50, if_false]
    rw [median_func_sorted hlt hless hx _ _ _ 0 (by omega) (by omega) (by omega)]
    simp

theorem partialInsertionSort_func_sorted {less : LessFactory} {lt : Card → Card → Bool}
    (hlt : StrictWeakOrder lt) (hless : ComparesBy less lt) {x : List Card}
    (hx : x.Pairwise (fun a b => lt b a = false)) (hn : 12 < x.length) :
    partialInsertionSort_func less x 0 x.length = (x, true) := by
  have hscan : scanUp (fun i => !less x i (i - 1)) x.length x.length (0 + 1) = x.length := by
    apply scanUp_all _ x.length x.length (0 + 1) (by omega) (by omega)
    intro i hi1 hin
    have := less_false_of_sorted hlt hless hx (i - 1) i (by omega) hin
    simp [this]
  unfold partialInsertionSort_func
  rw [partialInsertionSortLoop]
  simp only [hscan, if_true]

theorem bitsLen_pos (n : Nat) (hn : 0 < n) : bitsLen n n ≠ 0 := by
  cases n with
  | zero => omega
  | succ m => simp [bitsLen]

/-- The `sort.Slice` of Go 1.19 and later returns a slice that is already in
order as it is, whatever the pseudo-random generator. -/
theorem go119_sorted_unchanged (next : Nat → Nat) {less : LessFactory}
    {lt : Card → Card → Bool} (hlt : StrictWeakOrder lt) (hless : ComparesBy less lt)
    {x : List Card} (hx : x.Pairwise (fun a b => lt b a = false)) :
    Slice_go119 next less x = some x := by
  unfold Slice_go119
  rw [pdqsort_func]
  by_cases h12 : x.length ≤ 12
  · simp only [Nat.sub_zero, h12, if_true]
    rw [insertionSort_func_sorted hlt hless hx]
  · have hn : 12 < x.length := by omega
    have hb := bitsLen_pos x.length (by omega)
    simp only [Nat.sub_zero, h12, if_false, hb, Bool.not_true, Bool.false_eq_true,
      choosePivot_func_sorted hlt hless hx hn, Bool.and_self, Bool.true_and,
      decide_True, if_true]
    have hne : ¬ (sortedHint.increasingHint = sortedHint.decreasingHint) := by decide
    simp only [hne, if_false, decide_True, if_true,
      partialInsertionSort_func_sorted hlt hless hx hn]

/-- The key of a card that `New` or `Jokers` puts in a deck. -/
theorem absRank_deckCard (c : Card) (hc : isDeckCard c = true) :
    absRank c = c.Suit * 13 + c.Rank ∧
    ((@LE.le Int _ 0 c.Suit ∧ @LE.le Int _ c.Suit 3 ∧ @LE.le Int _ 1 c.Rank ∧
        @LE.le Int _ c.Rank 13) ∨
      (@Eq Int c.Suit 4 ∧ @LE.le Int _ 0 c.Rank ∧ @LT.lt Int _ c.Rank (2 ^ 63 - 52))) := by
  simp only [isDeckCard, Bool.or_eq_true, Bool.and_eq_true, decide_eq_true_eq] at hc
  rcases hc with ⟨⟨⟨h1, h2⟩, h3⟩, h4⟩ | ⟨⟨h1, h2⟩, h3⟩
  · exact ⟨absRank_numbered c ⟨h1, h2⟩ ⟨h3, h4⟩, Or.inl ⟨h1, h2, h3, h4⟩⟩
  · refine ⟨?_, Or.inr ⟨h1, h2, h3⟩⟩
    have e : c = joker c.Rank := by
      cases c with
      | mk r s =>
        simp only at h1
        simp only [joker, Card.mk.injEq, true_and]
        exact h1
    have hk := absRank_joker c.Rank h2 h3
    rw [← e] at hk
    have h1' : @Eq Int c.Suit 4 := h1
    rw [hk, h1']
    omega

theorem card_eq_of_fields (a : Card) (r s : Int) (hr : @Eq Int a.Rank r)
    (hs : @Eq Int a.Suit s) : a = { Rank := r, Suit := s } := by
  cases a with
  | mk ar as =>
    simp only at hr hs
    subst hr hs
    rfl

/-- Among the cards that `New` and `Jokers` put in a deck, only the King of
Hearts and the Joker tagged 0 are different cards with the same key. -/
theorem deckCard_ties (a b : Card) (ha : isDeckCard a = true) (hb : isDeckCard b = true)
    (hab : absRank a = absRank b) :
    a = b ∨ (a = kingOfHearts ∧ b = joker 0) ∨ (a = joker 0 ∧ b = kingOfHearts) := by
  obtain ⟨ka, ra⟩ := absRank_deckCard a ha
  obtain ⟨kb, rb⟩ := absRank_deckCard b hb
  rw [ka, kb] at hab
  have same : @Eq Int a.Rank b.Rank → @Eq Int a.Suit b.Suit → a = b := by
    intro hr hs
    have := card_eq_of_fields a b.Rank b.Suit hr hs
    rw [this]
  rcases ra with ⟨a1, a2, a3, a4⟩ | ⟨a1, a2, a3⟩
  · rcases rb with ⟨b1, b2, b3, b4⟩ | ⟨b1, b2, b3⟩
    · exact Or.inl (same (by omega) (by omega))
    · refine Or.inr (Or.inl ⟨?_, ?_⟩)
      · exact card_eq_of_fields a 13 3 (by omega) (by omega)
      · exact card_eq_of_fields b 0 4 (by omega) (by omega)
  · rcases rb with ⟨b1, b2, b3, b4⟩ | ⟨b1, b2, b3⟩
    · refine Or.inr (Or.inr ⟨?_, ?_⟩)
      · exact card_eq_of_fields a 0 4 (by omega) (by omega)
      · exact card_eq_of_fields b 13 3 (by omega) (by omega)
    · exact Or.inl (same (by omega) (by omega))

/-- C6, amended: for every deck `d`, `DefaultSort(DefaultSort(d))` holds the
cards of `DefaultSort(d)` with the same sequence of keys, and it is the same
sequence of cards whenever cards of `d` with equal keys are equal cards.
That is so for every deck made of cards of the four suits with ranks Ace to
King and of Jokers tagged from 0 to below `2^63 - 52` (the cards `New` and
`Jokers` make, duplicates included) that does not hold both a King of Hearts
and a Joker tagged 0.  With the `sort.Slice` of Go 1.19 and later, which
returns a slice that is in order as it is, the second pass changes nothing
once the first has left the deck in key order. -/
theorem C6_defaultSort_twice
    (sortSlice : LessFactory → List Card → List Card) (h : SortsSlices sortSlice)
    (d : List Card) :
    (DefaultSort sortSlice (DefaultSort sortSlice d)).Perm (DefaultSort sortSlice d) ∧
    (DefaultSort sortSlice (DefaultSort sortSlice d)).map absRank =
      (DefaultSort sortSlice d).map absRank ∧
    ((∀ a ∈ d, ∀ b ∈ d, absRank a = absRank b → a = b) →
      DefaultSort sortSlice (DefaultSort sortSlice d) = DefaultSort sortSlice d) ∧
    ((∀ c ∈ d, isDeckCard c = true) → ¬ (kingOfHearts ∈ d ∧ joker 0 ∈ d) →
      DefaultSort sortSlice (DefaultSort sortSlice d) = DefaultSort sortSlice d) ∧
    (∀ next : Nat → Nat,
      (DefaultSort (sorted119 next) d).Pairwise (fun a b => absRank a ≤ absRank b) →
      DefaultSort (sorted119 next) (DefaultSort (sorted119 next) d) =
        DefaultSort (sorted119 next) d) := by
  have hp1 := defaultSort_perm h d
  have hp2 := defaultSort_perm h (DefaultSort sortSlice d)
  have hs1 := defaultSort_sorted h d
  have hs2 := defaultSort_sorted h (DefaultSort sortSlice d)
  have hties : (∀ a ∈ d, ∀ b ∈ d, absRank a = absRank b → a = b) →
      DefaultSort sortSlice (DefaultSort sortSlice d) = DefaultSort sortSlice d := by
    intro hties
    apply eq_of_perm_of_sorted_of_ties hp2 hs2 hs1
    intro a ha b hb
    exact hties a (hp1.mem_iff.1 (hp2.mem_iff.1 ha)) b (hp1.mem_iff.1 (hp2.mem_iff.1 hb))
  refine ⟨hp2, ?_, hties, ?_, ?_⟩
  · apply List.eq_of_perm_of_sorted (r := fun a b : Int => a ≤ b) (hp2.map absRank)
    · exact (List.pairwise_map.2 hs2)
    · exact (List.pairwise_map.2 hs1)
  · intro hcards hno
    apply hties
    intro a ha b hb hab
    rcases deckCard_ties a b (hcards a ha) (hcards b hb) hab with e | ⟨e1, e2⟩ | ⟨e1, e2⟩
    · exact e
    · exact absurd ⟨e1 ▸ ha, e2 ▸ hb⟩ hno
    · exact absurd ⟨e2 ▸ hb, e1 ▸ ha⟩ hno
  · intro next hsorted
    have hx : (DefaultSort (sorted119 next) d).Pairwise (fun a b => ltRank b a = false) :=
      hsorted.imp (fun {a b} hab => (ltRank_eq_false_iff a b).2 hab)
    have e := go119_sorted_unchanged next ltRank_strictWeakOrder Less_comparesBy hx
    generalize DefaultSort (sorted119 next) d = y at e ⊢
    simp only [DefaultSort, sorted119, e, Option.getD_some]

theorem heartsAndJokers_in_order :
    heartsAndJokers.Pairwise (fun a b => ltRank b a = false) := by
  decide

theorem go119_heartsAndJokers (next : Nat → Nat) :
    DefaultSort (sorted119 next) heartsAndJokers = heartsAndJokers := by
  simp only [DefaultSort, sorted119, Option.getD_some,
    go119_sorted_unchanged next ltRank_strictWeakOrder Less_comparesBy heartsAndJokers_in_order]

/-- Witness for C6: insertion sort as the routine, on the King of Hearts, two
Aces of Spades and a Two of Spades, with and without a Joker tagged 1; and
the `sort.Slice` of Go 1.19 and later on the hearts from the Six up followed
by six Jokers. -/
theorem C6_witness :
    SortsSlices insertionSlice ∧
    DefaultSort insertionSlice
        (DefaultSort insertionSlice ([kingOfHearts] ++ spadesUpTo 2 ++ spadesUpTo 1)) =
      DefaultSort insertionSlice ([kingOfHearts] ++ spadesUpTo 2 ++ spadesUpTo 1) ∧
    ((∀ c ∈ [joker 1, kingOfHearts] ++ spadesUpTo 2 ++ spadesUpTo 1, isDeckCard c = true) ∧
      ¬ (kingOfHearts ∈ [joker 1, kingOfHearts] ++ spadesUpTo 2 ++ spadesUpTo 1 ∧
        joker 0 ∈ [joker 1, kingOfHearts] ++ spadesUpTo 2 ++ spadesUpTo 1) ∧
      DefaultSort insertionSlice
          (DefaultSort insertionSlice ([joker 1, kingOfHearts] ++ spadesUpTo 2 ++ spadesUpTo 1)) =
        DefaultSort insertionSlice ([joker 1, kingOfHearts] ++ spadesUpTo 2 ++ spadesUpTo 1)) ∧
    (∀ next : Nat → Nat,
      DefaultSort (sorted119 next) (DefaultSort (sorted119 next) heartsAndJokers) =
        DefaultSort (sorted119 next) heartsAndJokers) :=
  ⟨insertionSlice_sortsSlices,
    (C6_defaultSort_twice insertionSlice insertionSlice_sortsSlices
      ([kingOfHearts] ++ spadesUpTo 2 ++ spadesUpTo 1)).2.2.1 (by decide),
    ⟨by decide, by decide,
      (C6_defaultSort_twice insertionSlice insertionSlice_sortsSlices
        ([joker 1, kingOfHearts] ++ spadesUpTo 2 ++ spadesUpTo 1)).2.2.2.1
        (by decide) (by decide)⟩,
    fun next =>
      (C6_defaultSort_twice insertionSlice insertionSlice_sortsSlices heartsAndJokers).2.2.2.2 next
        (by
          rw [go119_heartsAndJokers next]
          exact heartsAndJokers_in_order.imp
            (fun {a b} hab => (ltRank_eq_false_iff a b).1 hab))⟩

set_option maxRecDepth 100000 in
theorem New_sorted : (New []).Pairwise (fun a b => absRank a ≤ absRank b) := by
  decide

set_option maxRecDepth 100000 in
theorem New_keys_distinct : ∀ a ∈ New [], ∀ b ∈ New [], absRank a = absRank b → a = b := by
  decide

theorem defaultSort_fresh_deck {sortSlice : LessFactory → List Card → List Card}
    (h : SortsSlices sortSlice) : New [DefaultSort sortSlice] = New [] := by
  rw [New_single]
  have hp := defaultSort_perm h (New [])
  have hs := defaultSort_sorted h (New [])
  apply eq_of_perm_of_sorted_of_ties hp hs New_sorted
  intro a ha b hb
  exact New_keys_distinct a (hp.mem_iff.1 ha) b (hp.mem_iff.1 hb)

/-- C7: whatever routine `sort.Slice` is, as long as it does what its
documentation says, `New(DefaultSort)` is `New()`, card for card, and its
first card is the Ace of Spades. -/
theorem C7_sorting_a_fresh_deck
    (sortSlice : LessFactory → List Card → List Card) (h : SortsSlices sortSlice) :
    New [DefaultSort sortSlice] = New [] ∧
    (New [DefaultSort sortSlice]).length = 52 ∧
    (∀ i : Nat, (New [DefaultSort sortSlice]).getD i default = (New []).getD i default) ∧
    (New [DefaultSort sortSlice]).head? = some { Suit := Spade, Rank := Ace } := by
  have e : New [DefaultSort sortSlice] = New [] := defaultSort_fresh_deck h
  rw [e]
  exact ⟨rfl, by decide, fun _ => rfl, by decide⟩

/-- Witness for C7: insertion sort as the routine. -/
theorem C7_witness :
    SortsSlices insertionSlice ∧ New [DefaultSort insertionSlice] = New [] :=
  ⟨insertionSlice_sortsSlices,
    (C7_sorting_a_fresh_deck insertionSlice insertionSlice_sortsSlices).1⟩

/-- C8: whatever routine `sort.Slice` is, as long as it does what its
documentation says: for every deck `d` and every comparator factory `less`
that compares the cards currently at positions `i` and `j` by a strict weak
order `lt`, `Sort(less)(d)` holds the cards of `d` with the same
multiplicities and no card in it is less than a card before it; `Sort(Less)`
returns what `DefaultSort` returns, and the first card of `New(Sort(Less))` is
the Ace of Spades. -/
theorem C8_sort_with_a_comparator
    (sortSlice : LessFactory → List Card → List Card) (h : SortsSlices sortSlice)
    (less : LessFactory) (lt : Card → Card → Bool) (hlt : StrictWeakOrder lt)
    (hless : ComparesBy less lt) (d : List Card) :
    (SortOption sortSlice less d).Perm d ∧
    (∀ c : Card, (SortOption sortSlice less d).count c = d.count c) ∧
    (SortOption sortSlice less d).Pairwise (fun earlier later => lt later earlier = false) ∧
    SortOption sortSlice Less d = DefaultSort sortSlice d ∧
    New [SortOption sortSlice Less] = New [] ∧
    (New [SortOption sortSlice Less]).head? = some { Suit := Spade, Rank := Ace } := by
  have hd := h less lt hlt hless d
  have e : New [SortOption sortSlice Less] = New [] := defaultSort_fresh_deck h
  refine ⟨hd.1, fun c => hd.1.count_eq c, hd.2, rfl, e, ?_⟩
  rw [e]
  decide

/-- Witness for C8: insertion sort as the routine, `Less` as the comparator
factory, on the King of Hearts, the Joker tagged 0 and the spades up to the
Jack. -/
theorem C8_witness :
    SortsSlices insertionSlice ∧ StrictWeakOrder ltRank ∧ ComparesBy Less ltRank ∧
    (SortOption insertionSlice Less tieFirst).Perm tieFirst ∧
    (SortOption insertionSlice Less tieFirst).Pairwise
      (fun earlier later => ltRank later earlier = false) :=
  ⟨insertionSlice_sortsSlices, ltRank_strictWeakOrder, Less_comparesBy,
    (C8_sort_with_a_comparator insertionSlice insertionSlice_sortsSlices Less ltRank
      ltRank_strictWeakOrder Less_comparesBy tieFirst).1,
    (C8_sort_with_a_comparator insertionSlice insertionSlice_sortsSlices Less ltRank
      ltRank_strictWeakOrder Less_comparesBy tieFirst).2.2.1⟩

/-! ## Shuffle -/

theorem shuffle_loop (cards : List Card) :
    ∀ (l : List Nat) (pre rest : List Card), l.length ≤ rest.length →
      (l.enumFrom pre.length).foldl
          (fun result ij => result.set ij.1 (cards.getD ij.2 default)) (pre ++ rest) =
        pre ++ l.map (fun j => cards.getD j default) ++ rest.drop l.length := by
  intro l
  induction l with
  | nil =>
    intro pre rest _
    simp
  | cons j t ih =>
    intro pre rest hlen
    cases rest with
    | nil => simp at hlen
    | cons r rest =>
      simp only [List.length_cons, Nat.add_le_add_iff_right] at hlen
      simp only [List.enumFrom_cons, List.foldl_cons, List.map_cons, List.drop_succ_cons]
      have hset : (pre ++ r :: rest).set pre.length (cards.getD j default) =
          (pre ++ [cards.getD j default]) ++ rest := by
        rw [List.set_append_right _ _ (Nat.le_refl _)]
        simp
      rw [hset]
      have hl : pre.length + 1 = (pre ++ [cards.getD j default]).length := by simp
      rw [hl, ih (pre ++ [cards.getD j default]) rest hlen]
      simp

theorem Shuffle_eq_map (perm : List Nat) (cards : List Card)
    (hlen : perm.length = cards.length) :
    Shuffle perm cards = perm.map (fun j => cards.getD j default) := by
  have h := shuffle_loop cards perm [] (List.replicate cards.length default)
    (by simp [hlen])
  simp only [List.length_nil, List.nil_append] at h
  unfold Shuffle List.enum
  rw [h]
  simp [hlen]

theorem map_getD_range (cards : List Card) :
    (List.range cards.length).map (fun j => cards.getD j default) = cards := by
  apply List.ext_getElem
  · simp
  · intro i h1 h2
    simp [List.getD_eq_getElem?_getD, List.getElem?_eq_getElem h2]

/-- C9: for every deck `d` of length `N` and every draw `perm` that is a
permutation of `0..N-1`, `Shuffle(d)` has length `N` and its card at each
position `i < N` is `d[perm[i]]`, so the draw fixes the result; with a draw
that starts 40, 35 the first two cards of `New(Shuffle)` are `New()[40]` and
`New()[35]`. -/
theorem C9_shuffle_follows_the_draw (d : List Card) (perm : List Nat)
    (hperm : perm.Perm (List.range d.length)) :
    (Shuffle perm d).length = d.length ∧
    (∀ i : Nat, i < d.length →
      (Shuffle perm d).getD i default = d.getD (perm.getD i 0) default) ∧
    Shuffle perm d = perm.map (fun j => d.getD j default) ∧
    (d = New [] → perm.getD 0 0 = 40 → perm.getD 1 0 = 35 →
      (New [Shuffle perm]).getD 0 default = (New []).getD 40 default ∧
      (New [Shuffle perm]).getD 1 default = (New []).getD 35 default) := by
  have hlen : perm.length = d.length := by
    simpa using hperm.length_eq
  have e := Shuffle_eq_map perm d hlen
  have hget : ∀ i : Nat, i < d.length →
      (Shuffle perm d).getD i default = d.getD (perm.getD i 0) default := by
    intro i hi
    have hi2 : i < perm.length := by omega
    rw [e]
    simp [List.getD_eq_getElem?_getD, List.getElem?_eq_getElem hi2, List.getElem?_map]
  refine ⟨by rw [e]; simp [hlen], hget, e, ?_⟩
  intro hd h0 h1
  subst hd
  rw [New_single]
  have hN : (New []).length = 52 := by decide
  rw [hget 0 (by omega), hget 1 (by omega), h0, h1]
  exact ⟨rfl, rfl⟩

set_option maxRecDepth 100000 in
theorem drawFortyThirtyFive_perm : drawFortyThirtyFive.Perm (List.range (New []).length) := by
  decide

/-- Witness for C9: the fresh deck and a draw that starts 40, 35. -/
theorem C9_witness :
    drawFortyThirtyFive.Perm (List.range (New []).length) ∧
    drawFortyThirtyFive.take 2 = [40, 35] ∧
    (Shuffle drawFortyThirtyFive (New [])).length = (New []).length ∧
    (New [Shuffle drawFortyThirtyFive]).getD 0 default = (New []).getD 40 default ∧
    (New [Shuffle drawFortyThirtyFive]).getD 1 default = (New []).getD 35 default :=
  ⟨drawFortyThirtyFive_perm, by decide,
    (C9_shuffle_follows_the_draw (New []) drawFortyThirtyFive drawFortyThirtyFive_perm).1,
    ((C9_shuffle_follows_the_draw (New []) drawFortyThirtyFive drawFortyThirtyFive_perm).2.2.2
      rfl (by decide) (by decide)).1,
    ((C9_shuffle_follows_the_draw (New []) drawFortyThirtyFive drawFortyThirtyFive_perm).2.2.2
      rfl (by decide) (by decide)).2⟩

/-- C10: for every deck `d` and every draw that is a permutation of the
positions of `d`, `Shuffle(d)` is a rearrangement of `d`: every card occurs in
it exactly as many times as in `d`. -/
theorem C10_shuffle_is_a_permutation (d : List Card) (perm : List Nat)
    (hperm : perm.Perm (List.range d.length)) :
    (Shuffle perm d).Perm d ∧ (∀ c : Card, (Shuffle perm d).count c = d.count c) := by
  have hlen : perm.length = d.length := by
    simpa using hperm.length_eq
  have hp : (Shuffle perm d).Perm d := by
    rw [Shuffle_eq_map perm d hlen]
    have := hperm.map (fun j => d.getD j default)
    rwa [map_getD_range] at this
  exact ⟨hp, fun c => hp.count_eq c⟩

/-- Witness for C10: the fresh deck and the draw that starts 40, 35. -/
theorem C10_witness :
    drawFortyThirtyFive.Perm (List.range (New []).length) ∧
    (Shuffle drawFortyThirtyFive (New [])).Perm (New []) :=
  ⟨drawFortyThirtyFive_perm,
    (C10_shuffle_is_a_permutation (New []) drawFortyThirtyFive drawFortyThirtyFive_perm).1⟩

/-! ## The contract and the library routines

The theorems on sorting above hold for any routine that meets the documented
contract of `sort.Slice`.  On the decks of this file the routines of the Go
library do give a sorted rearrangement. -/

theorem go119_fresh_deck (next : Nat → Nat) : New [DefaultSort (sorted119 next)] = New [] := by
  have hx : (New []).Pairwise (fun a b => ltRank b a = false) :=
    New_sorted.imp (fun {a b} hab => (ltRank_eq_false_iff a b).2 hab)
  rw [New_single]
  simp only [DefaultSort, sorted119, Option.getD_some,
    go119_sorted_unchanged next ltRank_strictWeakOrder Less_comparesBy hx]

set_option maxRecDepth 100000 in
theorem go118_fresh_deck_run : Slice_go118 Less (New []) = some (New []) := by
  decide

theorem go118_fresh_deck : New [DefaultSort sorted118] = New [] := by
  rw [New_single]
  simp only [DefaultSort, sorted118, go118_fresh_deck_run, Option.getD_some]

theorem library_sorts_tieFirst :
    (∀ next : Nat → Nat, (DefaultSort (sorted119 next) tieFirst).Perm tieFirst ∧
      (DefaultSort (sorted119 next) tieFirst).Pairwise (fun a b => absRank a ≤ absRank b)) ∧
    (DefaultSort sorted118 tieFirst).Perm tieFirst ∧
    (DefaultSort sorted118 tieFirst).Pairwise (fun a b => absRank a ≤ absRank b) := by
  have hp : (spadesUpTo 11 ++ [joker 0, kingOfHearts]).Perm tieFirst := by decide
  have hs : (spadesUpTo 11 ++ [joker 0, kingOfHearts]).Pairwise
      (fun a b => absRank a ≤ absRank b) := by decide
  refine ⟨fun next => ?_, ?_⟩
  · simp only [DefaultSort, sorted119, go119_tieFirst next, Option.getD_some]
    exact ⟨hp, hs⟩
  · simp only [DefaultSort, sorted118, go118_tieFirst, Option.getD_some]
    exact ⟨hp, hs⟩

/-! ## Shuffle on short decks -/

theorem shuffle_perm_of_draw (d : List Card) (perm : List Nat)
    (hperm : perm.Perm (List.range d.length)) : (Shuffle perm d).Perm d := by
  have hlen : perm.length = d.length := by
    simpa using hperm.length_eq
  rw [Shuffle_eq_map perm d hlen]
  have := hperm.map (fun j => d.getD j default)
  rwa [map_getD_range] at this

/-- C11: for every deck `d` of length 0 or 1 and every draw that is a
permutation of the positions of `d`, `Shuffle(d)` is `d`. -/
theorem C11_shuffle_of_short_deck (d : List Card) (hd : d.length ≤ 1) (perm : List Nat)
    (hperm : perm.Perm (List.range d.length)) : Shuffle perm d = d := by
  have hp := shuffle_perm_of_draw d perm hperm
  cases d with
  | nil => exact hp.eq_nil
  | cons c t =>
    cases t with
    | nil => exact List.perm_singleton.1 hp
    | cons c2 t2 =>
      simp only [List.length_cons] at hd
      omega

/-- Witness for C11: the one-card deck made of the King of Hearts, the only
draw being `[0]`; and the empty deck with the empty draw. -/
theorem C11_witness :
    [kingOfHearts].length ≤ 1 ∧ [0].Perm (List.range [kingOfHearts].length) ∧
    Shuffle [0] [kingOfHearts] = [kingOfHearts] ∧ Shuffle [] [] = [] :=
  ⟨by decide, by decide,
    C11_shuffle_of_short_deck [kingOfHearts] (by decide) [0] (by decide),
    C11_shuffle_of_short_deck [] (by decide) [] (by decide)⟩

/-! ## Jokers -/

/-- C12: for every deck `d` and every `n ≥ 0`, `Jokers(n)(d)` is `d` followed
by the Jokers tagged `0, 1, ..., n-1`: the cards of `d` are its first
`len(d)` cards, its length is `len(d) + n`, and `Jokers(0)(d)` is `d`. -/
theorem C12_jokers_appends_tagged_jokers (d : List Card) (n : Int) (hn : 0 ≤ n) :
    Jokers n d =
      d ++ (List.range n.toNat).map (fun (i : Nat) => ({ Suit := Joker, Rank := (i : Int) } : Card)) ∧
    (Jokers n d).take d.length = d ∧
    ((Jokers n d).length : Int) = (d.length : Int) + n ∧
    (∀ i : Nat, (i : Int) < n →
      (Jokers n d).getD (d.length + i) default = { Suit := Joker, Rank := (i : Int) }) ∧
    Jokers 0 d = d := by
  have e : Jokers n d =
      d ++ (List.range n.toNat).map
        (fun (i : Nat) => ({ Suit := Joker, Rank := (i : Int) } : Card)) :=
    Jokers_eq_append n d
  refine ⟨e, ?_, ?_, ?_, ?_⟩
  · rw [e]
    simp
  · rw [e]
    simp only [List.length_append, List.length_map, List.length_range, Nat.cast_add]
    omega
  · intro i hi
    have hi2 : i < n.toNat := by omega
    rw [e]
    have hlt : d.length + i <
        (d ++ List.map (fun (i : Nat) => ({ Suit := Joker, Rank := (i : Int) } : Card))
          (List.range n.toNat)).length := by
      simp only [List.length_append, List.length_map, List.length_range]
      omega
    rw [List.getD_eq_getElem _ _ hlt, List.getElem_append_right (by omega)]
    simp
  · rw [Jokers_eq_append]
    simp

/-- Witness for C12: two Jokers added to the deck made of the Ace of Spades. -/
theorem C12_witness :
    (0 : Int) ≤ 2 ∧ Jokers 2 [aceOfSpades] = [aceOfSpades, joker 0, joker 1] :=
  ⟨by decide, (C12_jokers_appends_tagged_jokers [aceOfSpades] 2 (by decide)).1⟩

theorem New_has_no_joker : (New []).filter isJoker = [] := by
  decide

theorem filter_isJoker_jokers (m : Nat) :
    ((List.range m).map (fun (i : Nat) => joker (i : Int))).filter isJoker =
      (List.range m).map (fun (i : Nat) => joker (i : Int)) := by
  rw [List.filter_eq_self]
  intro c hc
  rw [List.mem_map] at hc
  obtain ⟨i, _, rfl⟩ := hc
  rfl

/-- C13: for every `n ≥ 0`, the cards of `New(Jokers(n))` whose suit is Joker
are the Jokers tagged `0, 1, ..., n-1`, in that order: there are exactly `n`
of them and their ranks are `0, ..., n-1`, each once.  For `n = 3` they are
the three Jokers tagged 0, 1, 2. -/
theorem C13_jokers_in_a_new_deck (n : Int) (hn : 0 ≤ n) :
    (New [Jokers n]).filter isJoker = (List.range n.toNat).map (fun (i : Nat) => joker (i : Int)) ∧
    (((New [Jokers n]).filter isJoker).length : Int) = n ∧
    (((New [Jokers n]).countP isJoker : Nat) : Int) = n ∧
    ((New [Jokers n]).filter isJoker).map Card.Rank =
      (List.range n.toNat).map (fun (i : Nat) => (i : Int)) ∧
    (((New [Jokers n]).filter isJoker).map Card.Rank).Nodup ∧
    (∀ r : Int, r ∈ ((New [Jokers n]).filter isJoker).map Card.Rank ↔ 0 ≤ r ∧ r < n) ∧
    (New [Jokers 3]).filter isJoker = [joker 0, joker 1, joker 2] := by
  have e : (New [Jokers n]).filter isJoker =
      (List.range n.toNat).map (fun (i : Nat) => joker (i : Int)) := by
    rw [New_single, Jokers_eq_append, List.filter_append, New_has_no_joker,
      filter_isJoker_jokers, List.nil_append]
  have er : ((New [Jokers n]).filter isJoker).map Card.Rank =
      (List.range n.toNat).map (fun (i : Nat) => (i : Int)) := by
    rw [e, List.map_map]
    rfl
  refine ⟨e, ?_, ?_, er, ?_, ?_, by decide⟩
  · rw [e]
    simp only [List.length_map, List.length_range]
    omega
  · rw [List.countP_eq_length_filter, e]
    simp only [List.length_map, List.length_range]
    omega
  · rw [er]
    exact (List.nodup_range n.toNat).map (fun a b hab => by exact_mod_cast hab)
  · intro r
    rw [er]
    simp only [List.mem_map, List.mem_range]
    constructor
    · rintro ⟨i, hi, rfl⟩
      omega
    · rintro ⟨h0, h1⟩
      exact ⟨r.toNat, by omega, by omega⟩

/-- Witness for C13: three Jokers. -/
theorem C13_witness :
    (0 : Int) ≤ 3 ∧ (New [Jokers 3]).filter isJoker = [joker 0, joker 1, joker 2] ∧
    (((New [Jokers 3]).countP isJoker : Nat) : Int) = 3 :=
  ⟨by decide, (C13_jokers_in_a_new_deck 3 (by decide)).2.2.2.2.2.2,
    (C13_jokers_in_a_new_deck 3 (by decide)).2.2.1⟩

/-! ## Filter -/

theorem filter_loop (f : Card → Bool) (d : List Card) :
    ∀ acc : List Card,
      d.foldl (fun result c => if !f c then result ++ [c] else result) acc =
        acc ++ d.filter (fun c => !f c) := by
  induction d with
  | nil => intro acc; simp
  | cons c t ih =>
    intro acc
    simp only [List.foldl_cons, List.filter_cons]
    cases hf : f c
    · simp only [Bool.not_false, if_true]
      rw [ih]
      simp
    · simp only [Bool.not_true, Bool.false_eq_true, if_false]
      exact ih acc

theorem Filter_eq_filter (f : Card → Bool) (d : List Card) :
    Filter f d = d.filter (fun c => !f c) := by
  unfold Filter
  rw [filter_loop]
  simp

/-- C14: for every deck `d` and predicate `f`, `Filter(f)(d)` is the
subsequence of `d` made of the cards on which `f` is false, in their order in
`d`: no card on which `f` is true is left, every card on which `f` is false
is kept as many times as it occurs, and if `f` is true of every card of `d`
the result is empty. -/
theorem C14_filter_keeps_the_rejected (f : Card → Bool) (d : List Card) :
    Filter f d = d.filter (fun c => !f c) ∧
    (Filter f d).Sublist d ∧
    (∀ c ∈ Filter f d, f c = false) ∧
    (∀ c : Card, f c = false → (Filter f d).count c = d.count c) ∧
    (∀ c : Card, f c = true → (Filter f d).count c = 0) ∧
    ((∀ c ∈ d, f c = true) → Filter f d = []) := by
  have e := Filter_eq_filter f d
  refine ⟨e, ?_, ?_, ?_, ?_, ?_⟩
  · rw [e]
    exact List.filter_sublist d
  · intro c hc
    rw [e, List.mem_filter] at hc
    simpa using hc.2
  · intro c hc
    rw [e, List.count_filter]
    simp [hc]
  · intro c hc
    rw [e, List.count_eq_zero, List.mem_filter]
    simp [hc]
  · intro hall
    rw [e, List.filter_eq_nil_iff]
    intro c hc
    simp [hall c hc]

set_option maxRecDepth 100000 in
theorem filter_rank_lengths :
    ∀ k : Nat, k < 14 →
      ((New []).filter (fun c => !rankBelow ((k : Int) + 1) c)).length = 52 - 4 * k ∧
      ((New []).filter (rankBelow ((k : Int) + 1))).length = 4 * k := by
  decide

/-- C15: for every threshold `k` with `1 ≤ k ≤ 14`, `New(Filter(card.Rank < k))`
is the base deck without its cards of rank below `k`, the others in base
order; `4*(k-1)` cards are removed and `52 - 4*(k-1)` are left.  For `k = 5`
the 16 cards of rank Ace to Four are removed and 36 are left. -/
theorem C15_filter_by_rank (k : Int) (h1 : 1 ≤ k) (h14 : k ≤ 14) :
    New [Filter (rankBelow k)] = (New []).filter (fun c => !rankBelow k c) ∧
    (New [Filter (rankBelow k)]).Sublist (New []) ∧
    ((New [Filter (rankBelow k)]).length : Int) = 52 - 4 * (k - 1) ∧
    (((New []).filter (rankBelow k)).length : Int) = 4 * (k - 1) ∧
    (∀ c ∈ New [Filter (rankBelow k)], k ≤ c.Rank) ∧
    (New [Filter (rankBelow 5)]).length = 36 ∧
    ((New []).filter (rankBelow 5)).length = 16 := by
  have e : New [Filter (rankBelow k)] = (New []).filter (fun c => !rankBelow k c) := by
    rw [New_single, Filter_eq_filter]
  have hk : k = ((k - 1).toNat : Int) + 1 := by omega
  have hlen := filter_rank_lengths (k - 1).toNat (by omega)
  rw [← hk] at hlen
  refine ⟨e, ?_, ?_, ?_, ?_, ?_, ?_⟩
  · rw [e]
    exact List.filter_sublist _
  · rw [e, hlen.1]
    omega
  · rw [hlen.2]
    omega
  · intro c hc
    rw [e, List.mem_filter] at hc
    have := hc.2
    simp only [rankBelow, Bool.not_eq_true', decide_eq_false_iff_not, not_lt] at this
    exact this
  · rw [New_single, Filter_eq_filter]
    exact (filter_rank_lengths 4 (by decide)).1
  · exact (filter_rank_lengths 4 (by decide)).2

/-- Witness for C15: the threshold 5. -/
theorem C15_witness :
    (1 : Int) ≤ 5 ∧ (5 : Int) ≤ 14 ∧
    ((New [Filter (rankBelow 5)]).length : Int) = 52 - 4 * (5 - 1) :=
  ⟨by decide, by decide, (C15_filter_by_rank 5 (by decide) (by decide)).2.2.1⟩

/-- C16: for every deck `d`, filtering with the predicate that is false of
every card returns `d`: the same length, the same cards, the same order. -/
theorem C16_filter_nothing (d : List Card) :
    Filter (fun _ => false) d = d ∧
    (Filter (fun _ => false) d).length = d.length ∧
    (∀ i : Nat, (Filter (fun _ => false) d).getD i default = d.getD i default) := by
  have e : Filter (fun _ => false) d = d := by
    rw [Filter_eq_filter]
    simp
  rw [e]
  exact ⟨rfl, rfl, fun _ => rfl⟩
/-! ## Deck -/

theorem deck_loop (d : List Card) :
    ∀ (l : List Nat) (acc : List Card),
      l.foldl (fun result _ => result ++ d) acc = acc ++ (List.replicate l.length d).flatten := by
  intro l
  induction l with
  | nil => intro acc; simp
  | cons i t ih =>
    intro acc
    simp only [List.foldl_cons, List.length_cons, List.replicate_succ, List.flatten_cons]
    rw [ih, List.append_assoc]

theorem Deck_eq_copies (n : Int) (d : List Card) :
    Deck n d = (List.replicate n.toNat d).flatten := by
  unfold Deck
  rw [deck_loop]
  simp

theorem length_copies (d : List Card) (m : Nat) :
    ((List.replicate m d).flatten).length = m * d.length := by
  induction m with
  | zero => simp
  | succ m ih =>
    simp only [List.replicate_succ, List.flatten_cons, List.length_append, ih]
    rw [Nat.succ_mul]
    omega

theorem getD_copies (d : List Card) :
    ∀ (m k : Nat), k < m * d.length →
      ((List.replicate m d).flatten).getD k default = d.getD (k % d.length) default := by
  intro m
  induction m with
  | zero => intro k hk; simp at hk
  | succ m ih =>
    intro k hk
    simp only [List.replicate_succ, List.flatten_cons]
    by_cases hlt : k < d.length
    · rw [Nat.mod_eq_of_lt hlt]
      simp only [List.getD_eq_getElem?_getD]
      rw [List.getElem?_append_left hlt]
    · have hge : d.length ≤ k := by omega
      have hk2 : k - d.length < m * d.length := by
        rw [Nat.succ_mul] at hk
        omega
      have hmod : k % d.length = (k - d.length) % d.length := by
        rw [Nat.mod_eq_sub_mod hge]
      rw [hmod, ← ih (k - d.length) hk2]
      simp only [List.getD_eq_getElem?_getD]
      rw [List.getElem?_append_right hge]

/-- C17: for every deck `d` and every `n ≥ 0`, `Deck(n)(d)` is `n` copies of
`d` one after the other: its length is `n * len(d)` and its card at each
position `k` is `d[k mod len(d)]`.  `Deck(0)(d)` is empty, and `New(Deck(3))`
is three copies of `New()`, 156 cards. -/
theorem C17_deck_concatenates_copies (d : List Card) (n : Int) (hn : 0 ≤ n) :
    Deck n d = (List.replicate n.toNat d).flatten ∧
    ((Deck n d).length : Int) = n * (d.length : Int) ∧
    (∀ k : Nat, k < (Deck n d).length →
      (Deck n d).getD k default = d.getD (k % d.length) default) ∧
    Deck 0 d = [] ∧
    Deck 1 d = d ∧
    New [Deck 3] = New [] ++ New [] ++ New [] ∧
    (New [Deck 3]).length = 156 := by
  have e := Deck_eq_copies n d
  have e3 : New [Deck 3] = New [] ++ New [] ++ New [] := by
    rw [New_single, Deck_eq_copies]
    simp [List.replicate]
  have hN : (New []).length = 52 := by decide
  refine ⟨e, ?_, ?_, ?_, ?_, e3, ?_⟩
  · rw [e, length_copies]
    have : ((n.toNat : Nat) : Int) = n := Int.toNat_of_nonneg hn
    rw [Nat.cast_mul, this]
  · intro k hk
    rw [e] at hk ⊢
    rw [length_copies] at hk
    exact getD_copies d n.toNat k hk
  · rw [Deck_eq_copies]
    rfl
  · rw [Deck_eq_copies]
    simp [List.replicate]
  · rw [e3]
    simp only [List.length_append, hN]

/-- Witness for C17: two copies of the two cards Ace of Spades, King of Hearts. -/
theorem C17_witness :
    (0 : Int) ≤ 2 ∧
    Deck 2 [aceOfSpades, kingOfHearts] =
      [aceOfSpades, kingOfHearts, aceOfSpades, kingOfHearts] :=
  ⟨by decide, (C17_deck_concatenates_copies [aceOfSpades, kingOfHearts] 2 (by decide)).1⟩

/-! ## The order of the options matters -/

set_option maxRecDepth 100000 in
/-- C18: the options cannot be exchanged.  `New(Jokers(1), Deck(2))` has 106
cards, two of them Jokers; `New(Deck(2), Jokers(1))` has 105 cards, one of
them a Joker; so there are options `a`, `b` with `New(a, b)` different from
`New(b, a)`. -/
theorem C18_option_order_matters :
    (New [Jokers 1, Deck 2]).length = 106 ∧
    (New [Jokers 1, Deck 2]).countP isJoker = 2 ∧
    (New [Deck 2, Jokers 1]).length = 105 ∧
    (New [Deck 2, Jokers 1]).countP isJoker = 1 ∧
    New [Jokers 1, Deck 2] ≠ New [Deck 2, Jokers 1] ∧
    (∃ a b : List Card → List Card, New [a, b] ≠ New [b, a]) := by
  have h1 : (New [Jokers 1, Deck 2]).length = 106 := by decide
  have h2 : (New [Deck 2, Jokers 1]).length = 105 := by decide
  have hne : New [Jokers 1, Deck 2] ≠ New [Deck 2, Jokers 1] := by
    intro e
    rw [e, h2] at h1
    exact absurd h1 (by decide)
  exact ⟨h1, by decide, h2, by decide, hne, Jokers 1, Deck 2, hne⟩

/-! ## Sorting a rearranged standard deck -/

theorem defaultSort_of_perm_new {sortSlice : LessFactory → List Card → List Card}
    (h : SortsSlices sortSlice) {d : List Card} (hd : d.Perm (New [])) :
    DefaultSort sortSlice d = New [] := by
  have hp := (defaultSort_perm h d).trans hd
  have hs := defaultSort_sorted h d
  apply eq_of_perm_of_sorted_of_ties hp hs New_sorted
  intro a ha b hb
  exact New_keys_distinct a (hp.mem_iff.1 ha) b (hp.mem_iff.1 hb)

set_option maxRecDepth 100000 in
theorem New_keys : (New []).map absRank = (List.range 52).map (fun (k : Nat) => (k : Int) + 1) := by
  decide

/-- C19: whatever routine `sort.Slice` is, as long as it does what its
documentation says, `DefaultSort(d)` is `New()` for every deck `d` that is a
rearrangement of `New()`, such as `Shuffle(New())` for any draw.  The key of
the card at position `k` of `New()` is `k + 1`, so the 52 keys are distinct. -/
theorem C19_defaultSort_restores_the_base_order
    (sortSlice : LessFactory → List Card → List Card) (h : SortsSlices sortSlice)
    (d : List Card) (hd : d.Perm (New [])) :
    DefaultSort sortSlice d = New [] ∧
    (∀ perm : List Nat, perm.Perm (List.range (New []).length) →
      DefaultSort sortSlice (Shuffle perm (New [])) = New []) ∧
    (New []).map absRank = (List.range 52).map (fun (k : Nat) => (k : Int) + 1) ∧
    (∀ k : Nat, k < 52 → absRank ((New []).getD k default) = (k : Int) + 1) ∧
    ((New []).map absRank).Nodup := by
  refine ⟨defaultSort_of_perm_new h hd, ?_, New_keys, ?_, ?_⟩
  · intro perm hperm
    exact defaultSort_of_perm_new h (shuffle_perm_of_draw (New []) perm hperm)
  · intro k hk
    have hlen : (New []).length = 52 := by decide
    have hk2 : k < ((New []).map absRank).length := by
      rw [List.length_map, hlen]
      exact hk
    have hk3 : k < (New []).length := by omega
    have e1 : ((New []).map absRank)[k] = absRank ((New []).getD k default) := by
      rw [List.getElem_map, List.getD_eq_getElem _ _ hk3]
    rw [← e1]
    simp only [New_keys, List.getElem_map, List.getElem_range]
  · rw [New_keys]
    exact (List.nodup_range 52).map (fun a b hab => by
      have : (a : Int) + 1 = (b : Int) + 1 := hab
      omega)

/-- Witness for C19: insertion sort as the routine, on the fresh deck
shuffled with the draw that starts 40, 35. -/
theorem C19_witness :
    SortsSlices insertionSlice ∧
    (Shuffle drawFortyThirtyFive (New [])).Perm (New []) ∧
    DefaultSort insertionSlice (Shuffle drawFortyThirtyFive (New [])) = New [] :=
  ⟨insertionSlice_sortsSlices,
    shuffle_perm_of_draw (New []) drawFortyThirtyFive drawFortyThirtyFive_perm,
    (C19_defaultSort_restores_the_base_order insertionSlice insertionSlice_sortsSlices
      (Shuffle drawFortyThirtyFive (New []))
      (shuffle_perm_of_draw (New []) drawFortyThirtyFive drawFortyThirtyFive_perm)).1⟩

/-! ## Negative counts -/

/-- C20: for every deck `d` and every `n < 0`, the loops of `Jokers(n)` and
`Deck(n)` run no round: `Jokers(n)(d)` is `d` and `Deck(n)(d)` is empty, as
with a count of zero. -/
theorem C20_negative_counts (d : List Card) (n : Int) (hn : n < 0) :
    Jokers n d = d ∧ Deck n d = [] ∧ Jokers n d = Jokers 0 d ∧ Deck n d = Deck 0 d := by
  have h0 : n.toNat = 0 := Int.toNat_of_nonpos (by omega)
  have hj : Jokers n d = d := by
    unfold Jokers
    rw [h0]
    rfl
  have hd : Deck n d = [] := by
    unfold Deck
    rw [h0]
    rfl
  exact ⟨hj, hd, hj, hd⟩

/-- Witness for C20: the count -3 on the deck made of the Ace of Spades. -/
theorem C20_witness :
    (-3 : Int) < 0 ∧ Jokers (-3) [aceOfSpades] = [aceOfSpades] ∧ Deck (-3) [aceOfSpades] = [] :=
  ⟨by decide, (C20_negative_counts [aceOfSpades] (-3) (by decide)).1,
    (C20_negative_counts [aceOfSpades] (-3) (by decide)).2.1⟩
end deck
